import Mathlib

/-!
Shallow embedding of `api/scanner.py` from the solana-drops-vercel
repository: value coercion (`safe_float`), best-pair selection, market-cap
and ATH resolution, candidate filtering and the scan orchestrator.

Python floats are modelled as `PyFloat` (a rational for the finite case plus
the three non-finite values) at the coercion layer; the pipeline layer works
on already-coerced fields, modelled as `Option ℚ` (`none` stands for a field
that `safe_float` with default `None` turned into `None`).  Network calls are
modelled by explicit environment records of oracle functions; an exception
raised by a call is an `Except.error`.
-/

attribute [local semireducible] Rat.mul Rat.inv Rat.add Rat.sub Rat.ofScientific

/-- A Python float value: finite (modelled as an exact rational), or one of
the non-finite values `inf`, `-inf`, `nan`. -/
inductive PyFloat where
  | finite (q : ℚ)
  | inf
  | neginf
  | nan
deriving DecidableEq, Repr

def PyFloat.isFinite : PyFloat → Bool
  | .finite _ => true
  | _ => false

/-- An external value as it may reach `safe_float`: JSON null / absent
(`none`), a Python float (finite or not), or a string. -/
inductive PyVal where
  | none
  | num (q : ℚ)
  | inf
  | neginf
  | nan
  | str (s : String)
deriving DecidableEq, Repr

/-- Python `str.strip()` whitespace: space, tab, newline, carriage return,
vertical tab, form feed (the ASCII whitespace relevant to this data). -/
def isPySpace (c : Char) : Bool :=
  c = ' ' ∨ c = '\t' ∨ c = '\n' ∨ c = '\r' ∨ c.toNat = 11 ∨ c.toNat = 12

/-- Python `str.strip()` on a character list. -/
def pyStrip (l : List Char) : List Char :=
  ((l.dropWhile isPySpace).reverse.dropWhile isPySpace).reverse

def lowerAscii (c : Char) : Char :=
  if 'A' ≤ c ∧ c ≤ 'Z' then Char.ofNat (c.toNat + 32) else c

/-- Python `str.lower()` (ASCII case, which is all this data uses). -/
def pyLower (l : List Char) : List Char := l.map lowerAscii

/-- Consumes a `(digit | '_' digit)*` tail of a digit chain (Python float
literals allow single underscores between digits); returns the digits read
(underscores dropped) and the unconsumed rest. -/
def digitChainAux : List Char → List Char × List Char
  | '_' :: d :: rest =>
      if d.isDigit then
        let (a, b) := digitChainAux rest
        (d :: a, b)
      else ([], '_' :: d :: rest)
  | d :: rest =>
      if d.isDigit then
        let (a, b) := digitChainAux rest
        (d :: a, b)
      else ([], d :: rest)
  | [] => ([], [])

/-- Parses a Python digit chain `digit (digit | '_' digit)*`; fails if the
input does not start with a digit. -/
def parseDigitChain (l : List Char) : Option (List Char × List Char) :=
  match l with
  | d :: rest =>
      if d.isDigit then
        let (a, b) := digitChainAux rest
        some (d :: a, b)
      else Option.none
  | [] => Option.none

def digitsToNat (l : List Char) : Nat :=
  l.foldl (fun n c => n * 10 + (c.toNat - 48)) 0

/-- An optional sign; returns whether negative and the rest. -/
def parseSign : List Char → Bool × List Char
  | '+' :: r => (false, r)
  | '-' :: r => (true, r)
  | r => (false, r)

/-- The exact value of `intpart.fracpart * 10^e`, written as one normalised
fraction so that it evaluates by kernel reduction. -/
def mkFloatVal (ds fs : List Char) (e : ℤ) : ℚ :=
  let mant : ℕ := digitsToNat ds * 10 ^ fs.length + digitsToNat fs
  if 0 ≤ e then mkRat (mant * 10 ^ e.toNat) (10 ^ fs.length)
  else mkRat mant (10 ^ fs.length * 10 ^ e.natAbs)

/-- Parses an optional exponent part after the mantissa and finishes the
numeric literal; anything left over is a parse failure. -/
def parseExpFinish (ds fs : List Char) (rest : List Char) : Option ℚ :=
  match rest with
  | [] => some (mkFloatVal ds fs 0)
  | 'e' :: r =>
      let (eneg, r2) := parseSign r
      match parseDigitChain r2 with
      | some (es, []) =>
          some (mkFloatVal ds fs (if eneg then -(digitsToNat es : ℤ) else (digitsToNat es : ℤ)))
      | _ => Option.none
  | _ => Option.none

/-- Parses an unsigned numeric float literal
`digitpart [. [digitpart]] [exp] | . digitpart [exp]` (input already
lower-cased, so only `e` introduces an exponent). -/
def parseNumeric (l : List Char) : Option ℚ :=
  match parseDigitChain l with
  | some (ds, rest) =>
      match rest with
      | '.' :: r2 =>
          match parseDigitChain r2 with
          | some (fs, r3) => parseExpFinish ds fs r3
          | Option.none => parseExpFinish ds [] r2
      | _ => parseExpFinish ds [] rest
  | Option.none =>
      match l with
      | '.' :: r2 =>
          match parseDigitChain r2 with
          | some (fs, r3) => parseExpFinish [] fs r3
          | Option.none => Option.none
      | _ => Option.none

/-- Model of Python `float(s)` on an already-stripped string: an optional
sign followed by `inf`/`infinity`, `nan`, or a numeric literal
(case-insensitive). Returns `none` where Python raises `ValueError`. -/
def pyParseFloat (s : String) : Option PyFloat :=
  let l := pyLower s.data
  let (neg, l2) := parseSign l
  if l2 = "inf".data ∨ l2 = "infinity".data then
    some (if neg then .neginf else .inf)
  else if l2 = "nan".data then some .nan
  else
    match parseNumeric l2 with
    | some q => some (.finite (if neg then -q else q))
    | Option.none => Option.none

/-- Embedding of `safe_float(x, default)` (scanner.py lines 32-39):
`None` yields the default; otherwise `s = str(x).strip()`, the tokens
`nan`/`none`/`''` (lower-cased) yield the default, and `float(s)` is
returned with any parse failure yielding the default.  For float inputs,
`str` round-trips: a finite float re-parses to itself, `inf`/`-inf`
stringify to `inf`/`-inf` (which re-parse to themselves) and `nan`
stringifies to `nan`, which the token check turns into the default. -/
def safe_float (x : PyVal) (default : Option PyFloat) : Option PyFloat :=
  match x with
  | .none => default
  | .num q => some (.finite q)
  | .inf => some .inf
  | .neginf => some .neginf
  | .nan => default
  | .str s =>
      let t := pyStrip s.data
      if pyLower t = "nan".data ∨ pyLower t = "none".data ∨ pyLower t = [] then default
      else
        match pyParseFloat (String.mk t) with
        | some f => some f
        | Option.none => default

/-! ## The pair data model (post-coercion layer)

A `RawPair` is a pair record as the pipeline reads it; each numeric field
holds the value `safe_float(field)` (with default `None`) would produce,
restricted to the finite case, and each string field holds the raw string
(`none` for null/absent). -/

structure RawPair where
  chainId : Option String := Option.none
  baseName : Option String := Option.none
  baseSymbol : Option String := Option.none
  baseAddress : Option String := Option.none
  pairAddress : Option String := Option.none
  priceUsd : Option ℚ := Option.none
  volumeH24 : Option ℚ := Option.none
  liquidityUsd : Option ℚ := Option.none
  marketCap : Option ℚ := Option.none
  fdv : Option ℚ := Option.none
  athPrice : Option ℚ := Option.none
deriving DecidableEq, Repr

/-- `((x or "") .strip())` on an optional string field. -/
def stripOpt (s : Option String) : String := String.mk (pyStrip (s.getD "").data)

/-- Python truthiness-and-positivity test `v and v > 0` on a coerced
value: true exactly for a present, strictly positive number. -/
def posO (v : Option ℚ) : Bool :=
  match v with
  | some a => decide (0 < a)
  | Option.none => false

/-! ## Best-pair selection (scanner.py lines 97-109) -/

/-- `safe_float(liquidity.usd, 0) or 0.0` on the coerced field. -/
def liqD (p : RawPair) : ℚ := p.liquidityUsd.getD 0

/-- `safe_float(volume.h24, 0) or 0.0` on the coerced field. -/
def volD (p : RawPair) : ℚ := p.volumeH24.getD 0

/-- `best.get(base)` on the insertion-ordered dictionary. -/
def lookupAssoc : List (String × RawPair) → String → Option RawPair
  | [], _ => Option.none
  | (k, v) :: t, k' => if k = k' then some v else lookupAssoc t k'

/-- `best[base] = p` on an insertion-ordered dictionary that already holds
`base`: the entry is updated in place, keeping its position. -/
def updateAssoc : List (String × RawPair) → String → RawPair → List (String × RawPair)
  | [], k, v => [(k, v)]
  | (k', v') :: t, k, v =>
      if k' = k then (k, v) :: t else (k', v') :: updateAssoc t k v

/-- One iteration of the `select_best_pair_by_token` loop. -/
def selectStep (best : List (String × RawPair)) (p : RawPair) : List (String × RawPair) :=
  let base := stripOpt p.baseAddress
  if base = "" then best
  else
    match lookupAssoc best base with
    | Option.none => best ++ [(base, p)]
    | some ex =>
        if liqD p > liqD ex ∨ (liqD p = liqD ex ∧ volD p > volD ex) then
          updateAssoc best base p
        else best

/-- Embedding of `select_best_pair_by_token` (scanner.py lines 97-109); the
Python dict is modelled as an insertion-ordered association list. -/
def select_best_pair_by_token (pairs : List RawPair) : List (String × RawPair) :=
  pairs.foldl selectStep []

/-! ## Network environments

Each network call is modelled by an oracle function; `Except.error` is an
exception raised by the call (after the retry wrapper gave up). -/

def CHAIN_ID : String := "solana"

/-- `(p.get("chainId") or "").lower() == CHAIN_ID`. -/
def chainIsSolana (p : RawPair) : Bool :=
  pyLower (p.chainId.getD "").data = CHAIN_ID.data

/-- Oracles for the two market-data lookup endpoints used during
filtering. `pairLookup a` models `GET /latest/dex/pairs/solana/a` (its
`pairs` list, `[]` when the field is null/absent); `tokenPools a` models
`GET /tokens/v1/solana/a` (the raw pair list before chain filtering). -/
structure DexEnv where
  pairLookup : String → Except String (List RawPair)
  tokenPools : String → Except String (List RawPair)

/-- Embedding of `_fetch_token_pools` (scanner.py lines 111-120): filters the
pool list to the Solana chain, any exception yields `[]`. -/
def fetch_token_pools (env : DexEnv) (token_addr : String) : List RawPair :=
  match env.tokenPools token_addr with
  | .ok l => l.filter chainIsSolana
  | .error _ => []

/-- The mutable state of an `STClient`: the credential flag set on 401. -/
structure STClientState where
  unauthorized : Bool
deriving DecidableEq, Repr

/-- The eventual outcome of one secondary-provider request, after the retry
wrapper: a 401, a 404, retryable statuses exhausted, another HTTP error, or
a 2xx body whose `highest_price` coerces to the given value. -/
inductive STHttp where
  | s401
  | s404
  | retriesExhausted
  | otherError
  | ok (highestPrice : Option ℚ)

/-- Embedding of `STClient.get_token_ath` (scanner.py lines 73-80): 401 sets
`unauthorized` and returns no data; 404 returns no data; retryable and other
failures raise. The flag is only ever written, never read, by the client. -/
def get_token_ath (st : STClientState) (resp : STHttp) :
    Except Unit (Option ℚ) × STClientState :=
  match resp with
  | .s401 => (.ok Option.none, { st with unauthorized := true })
  | .s404 => (.ok Option.none, st)
  | .retriesExhausted => (.error (), st)
  | .otherError => (.error (), st)
  | .ok hp => (.ok hp, st)

/-- The secondary-provider environment: whether `SOLANATRACKER_API_KEY` is
set (non-empty) and the outcome of the n-th secondary call of the scan. -/
structure STEnv where
  keyConfigured : Bool
  stResp : Nat → STHttp

/-- Positive entries of the coerced values `l`, as in
`[a for a in ats if a and a > 0]`. -/
def posVals (l : List (Option ℚ)) : List ℚ :=
  l.filterMap fun v =>
    match v with
    | some a => if 0 < a then some a else Option.none
    | Option.none => Option.none

/-- Python `max` over a non-empty list, as a fold. -/
def listMax (a : ℚ) (rest : List ℚ) : ℚ := rest.foldl max a

/-- Embedding of `_ensure_ath` (scanner.py lines 122-150).  Stages in order:
inline ATH, direct pair re-fetch, pool ATH maximum, secondary provider
(when a client was passed and the base address is non-empty), and the
current-price pool maximum proxy (when enabled).  Returns the resolved ATH
(`none` = unresolved) and the updated secondary-call count; `calls` indexes
`stEnv.stResp`. -/
def ensure_ath (dex : DexEnv) (stEnv : STEnv) (p : RawPair)
    (st : Option STClientState) (use_proxy_poolmax : Bool) (calls : Nat) :
    Option ℚ × Nat :=
  let ath := p.athPrice
  if posO ath then (ath, calls)
  else
    let pair_addr := stripOpt p.pairAddress
    let viaPair : Option ℚ :=
      if pair_addr ≠ "" then
        match dex.pairLookup pair_addr with
        | .ok lst =>
            match lst with
            | [] => Option.none
            | h :: _ => if posO h.athPrice then h.athPrice else Option.none
        | .error _ => Option.none
      else Option.none
    match viaPair with
    | some a2 => (some a2, calls)
    | Option.none =>
      let base_addr := stripOpt p.baseAddress
      let tps := if base_addr ≠ "" then fetch_token_pools dex base_addr else []
      match posVals (tps.map (·.athPrice)) with
      | a :: rest => (some (listMax a rest), calls)
      | [] =>
        let viaST : Option ℚ × Nat :=
          match st with
          | some stc =>
              if base_addr ≠ "" then
                match (get_token_ath stc (stEnv.stResp calls)).1 with
                | .ok v => (if posO v then v else Option.none, calls + 1)
                | .error _ => (Option.none, calls + 1)
              else (Option.none, calls)
          | Option.none => (Option.none, calls)
        match viaST with
        | (some v, calls') => (some v, calls')
        | (Option.none, calls') =>
            if use_proxy_poolmax ∧ tps ≠ [] then
              match posVals (tps.map (·.priceUsd)) with
              | q :: rest => (some (listMax q rest), calls')
              | [] => (Option.none, calls')
            else (Option.none, calls')

/-- Embedding of `_resolve_market_cap` (scanner.py lines 152-166): inline
market cap, inline FDV, then the maximum market-cap-or-FDV over the pool
lookup; `none` = unresolved. -/
def resolve_market_cap (dex : DexEnv) (p : RawPair) : Option ℚ :=
  if posO p.marketCap then p.marketCap
  else if posO p.fdv then p.fdv
  else
    let base := stripOpt p.baseAddress
    if base = "" then Option.none
    else
      let tps := fetch_token_pools dex base
      let cands := tps.filterMap fun tp =>
        if posO tp.marketCap then tp.marketCap
        else if posO tp.fdv then tp.fdv
        else Option.none
      match cands with
      | [] => Option.none
      | c :: rest => some (listMax c rest)

/-! ## Candidate filter (scanner.py lines 168-198) -/

def DEX_WEB : String := "https://dexscreener.com"

/-- The explorer link of a candidate row. -/
def mkDexLink (pair_addr : String) : String :=
  if pair_addr ≠ "" then DEX_WEB ++ "/" ++ CHAIN_ID ++ "/" ++ pair_addr
  else DEX_WEB ++ "/" ++ CHAIN_ID

/-- The output row dataclass `PairRow` (scanner.py lines 18-30). -/
structure PairRow where
  timestamp : String
  tokenName : String
  symbol : String
  baseAddress : String
  pairAddress : String
  priceUsd : ℚ
  athPrice : ℚ
  pctOfAth : ℚ
  volumeH24 : ℚ
  liquidityUsd : ℚ
  dexLink : String
deriving DecidableEq, Repr

/-- The statistics dictionary initialised at the top of
`filter_candidates`. -/
structure ScanStats where
  mcap_ok : Nat := 0
  mcap_missing : Nat := 0
  mcap_out : Nat := 0
  ath_found : Nat := 0
  ath_missing : Nat := 0
deriving DecidableEq, Repr

/-- The keyword configuration of `filter_candidates`. -/
structure FilterCfg where
  vol_min : ℚ
  vol_max : ℚ
  pct_threshold : ℚ
  liq_min_usd : ℚ
  mcap_min : ℚ
  mcap_max : ℚ
  use_proxy_poolmax : Bool
  now_iso : String

/-- The loop state of `filter_candidates`: accumulated rows and statistics,
plus the running count of secondary-provider calls made so far in the scan
(used to index `STEnv.stResp`). -/
structure FCState where
  rows : List PairRow := []
  stats : ScanStats := {}
  stCalls : Nat := 0
deriving Repr

/-- The ATH computation of `filter_candidates` (scanner.py lines 190-192):
the inline ATH if positive, else `_ensure_ath` with a freshly constructed
`STClient` when the environment's API key is set (the `st` argument of
`filter_candidates` is not consulted there). -/
def filterAth (dex : DexEnv) (stEnv : STEnv) (use_proxy_poolmax : Bool)
    (p : RawPair) (calls : Nat) : Option ℚ × Nat :=
  match p.athPrice with
  | some a =>
      if a ≤ 0 then
        ensure_ath dex stEnv p
          (if stEnv.keyConfigured then some ⟨false⟩ else Option.none)
          use_proxy_poolmax calls
      else (some a, calls)
  | Option.none =>
      ensure_ath dex stEnv p
        (if stEnv.keyConfigured then some ⟨false⟩ else Option.none)
        use_proxy_poolmax calls

/-- One iteration of the `filter_candidates` loop (scanner.py lines
174-197) on a representative pair. -/
def filterStep (dex : DexEnv) (stEnv : STEnv) (cfg : FilterCfg)
    (s : FCState) (p : RawPair) : FCState :=
  let token_name := stripOpt p.baseName
  let symbol := stripOpt p.baseSymbol
  let base_addr := stripOpt p.baseAddress
  let pair_addr := stripOpt p.pairAddress
  match p.priceUsd, p.volumeH24, p.liquidityUsd with
  | some price, some vol, some liq =>
      if base_addr = "" then s
      else if vol < cfg.vol_min ∨ vol > cfg.vol_max then s
      else if liq < cfg.liq_min_usd then s
      else
        match resolve_market_cap dex p with
        | Option.none =>
            { s with stats := { s.stats with mcap_missing := s.stats.mcap_missing + 1 } }
        | some mcap =>
            if ¬ (cfg.mcap_min ≤ mcap ∧ mcap ≤ cfg.mcap_max) then
              { s with stats := { s.stats with mcap_out := s.stats.mcap_out + 1 } }
            else
              let s1 : FCState :=
                { s with stats := { s.stats with mcap_ok := s.stats.mcap_ok + 1 } }
              let ac := filterAth dex stEnv cfg.use_proxy_poolmax p s1.stCalls
              let calls' := ac.2
              match ac.1 with
              | Option.none =>
                  { s1 with
                    stats := { s1.stats with ath_missing := s1.stats.ath_missing + 1 },
                    stCalls := calls' }
              | some a =>
                  if a ≤ 0 then
                    { s1 with
                      stats := { s1.stats with ath_missing := s1.stats.ath_missing + 1 },
                      stCalls := calls' }
                  else
                    let s2 : FCState :=
                      { s1 with
                        stats := { s1.stats with ath_found := s1.stats.ath_found + 1 },
                        stCalls := calls' }
                    let pct := price / a
                    if pct ≤ cfg.pct_threshold / 100 then
                      { s2 with rows := s2.rows ++
                          [⟨cfg.now_iso, token_name, symbol, base_addr, pair_addr,
                            price, a, pct, vol, liq, mkDexLink pair_addr⟩] }
                    else s2
  | _, _, _ => s

/-- Embedding of `filter_candidates` (scanner.py lines 168-198) over the
representative pairs. -/
def filter_candidates (dex : DexEnv) (stEnv : STEnv) (cfg : FilterCfg)
    (pairs : List RawPair) : FCState :=
  pairs.foldl (filterStep dex stEnv cfg) {}

/-! ## Seeds, page fetch, prefilter and the orchestrator
(scanner.py lines 82-95 and 200-235) -/

/-- `DEFAULT_SEEDS`: all two-letter lowercase combinations `aa`..`zz` in
lexicographic order. -/
def DEFAULT_SEEDS : List String :=
  ((List.range 26).map fun c =>
    (List.range 26).map fun d =>
      String.mk [Char.ofNat (97 + c), Char.ofNat (97 + d)]).flatten

/-- Python `str.split(',')` on a character list (splitting the empty string
gives one empty part). -/
def splitComma : List Char → List (List Char)
  | [] => [[]]
  | c :: t =>
      if c = ',' then [] :: splitComma t
      else
        match splitComma t with
        | h :: r => (c :: h) :: r
        | [] => [[c]]

/-- Embedding of `_get_seeds` (scanner.py lines 83-88). -/
def get_seeds (max_pages : ℤ) (seeds_from_env : String) (min_len : ℕ) :
    List String :=
  let seeds :=
    if seeds_from_env ≠ "" then
      ((splitComma seeds_from_env.data).map fun s => String.mk (pyStrip s)).filter
        fun s => s.length ≥ min_len
    else DEFAULT_SEEDS.filter fun s => s.length ≥ min_len
  if max_pages > 0 then seeds.take max_pages.toNat else seeds

/-- The search oracle of the orchestrator: `search q` models
`GET /latest/dex/search?q=q`, the `pairs` list of the response (`[]` when
the field is null/absent), or the exception text after retries give up. -/
structure SearchEnv where
  search : String → Except String (List RawPair)

/-- Embedding of `fetch_pairs_page` (scanner.py lines 90-95): out-of-range
pages give an empty page, otherwise the seed's search results filtered to
the Solana chain; a raised search exception propagates. -/
def fetch_pairs_page (env : SearchEnv) (page : ℕ) (seeds : List String) :
    Except String (List RawPair) :=
  if page < 1 ∨ page > seeds.length then .ok []
  else
    match env.search (seeds.getD (page - 1) "") with
    | .ok raw => .ok (raw.filter chainIsSolana)
    | .error e => .error e

/-- The inline market cap of the orchestrator's prefilter:
`safe_float(p.marketCap) or safe_float(p.fdv)` (a zero market cap falls
through to the FDV). -/
def inlineMcap (p : RawPair) : Option ℚ :=
  match p.marketCap with
  | some m => if m = 0 then p.fdv else some m
  | Option.none => p.fdv

/-- The per-pair inline prefilter of `scan_once` (scanner.py lines
215-222): presence of volume and liquidity, volume and liquidity bounds,
and the inline market-cap range check when an inline value is present. -/
def prefilterKeep (cfg : FilterCfg) (p : RawPair) : Bool :=
  match p.volumeH24, p.liquidityUsd with
  | some vol, some liq =>
      if vol < cfg.vol_min ∨ vol > cfg.vol_max then false
      else if liq < cfg.liq_min_usd then false
      else
        match inlineMcap p with
        | some m => decide (cfg.mcap_min ≤ m ∧ m ≤ cfg.mcap_max)
        | Option.none => true
  | _, _ => false

/-- An entry of the orchestrator's error log. -/
structure ErrRec where
  seed : String
  page : ℕ
  error : String
deriving DecidableEq, Repr

/-- The final statistics dictionary of `scan_once` after
`stats.update(...)`. -/
structure FullStats where
  filterStats : ScanStats
  search_pairs : ℕ
  prefilter : ℕ
  unique_tokens : ℕ
  candidates_after_threshold : ℕ
deriving DecidableEq, Repr

/-- The result dictionary of `scan_once`; `errors` and `used_seeds` are the
debug fields. -/
structure ScanResult where
  stats : FullStats
  rows : List PairRow
  st_enabled : Bool
  errors : List ErrRec
  used_seeds : List String
deriving Repr

/-- The full network environment of one scan. -/
structure ScanEnv where
  searchEnv : SearchEnv
  dex : DexEnv
  stEnv : STEnv
  now_iso : String

/-- The non-network configuration of `scan_once`; `st_api_key` is the
keyword argument (the `STEnv.keyConfigured` flag is the environment
variable read inside `filter_candidates`). -/
structure ScanCfg where
  volume_min : ℚ
  volume_max : ℚ
  price_threshold_pct : ℚ
  liq_min_usd : ℚ
  mcap_min : ℚ
  mcap_max : ℚ
  seeds_from_env : String
  max_pages : ℤ
  min_seed_len : ℕ
  st_api_key : String
  use_proxy_poolmax : Bool

def ScanCfg.toFilterCfg (cfg : ScanCfg) (now_iso : String) : FilterCfg :=
  { vol_min := cfg.volume_min, vol_max := cfg.volume_max,
    pct_threshold := cfg.price_threshold_pct, liq_min_usd := cfg.liq_min_usd,
    mcap_min := cfg.mcap_min, mcap_max := cfg.mcap_max,
    use_proxy_poolmax := cfg.use_proxy_poolmax, now_iso := now_iso }

/-- The per-page fetch loop of `scan_once` (lines 207-223): accumulates the
fetched-pair count, the prefiltered pairs and the error log over pages
`1..seeds.length`, applying the given prefilter predicate to each pair. -/
def scanPages (env : SearchEnv) (keep : RawPair → Bool) (seeds : List String) :
    ℕ × List RawPair × List ErrRec :=
  (List.range seeds.length).foldl
    (fun (acc : ℕ × List RawPair × List ErrRec) i =>
      let idx := i + 1
      let seed := seeds.getD (idx - 1) ""
      match fetch_pairs_page env idx seeds with
      | .ok chunk =>
          (acc.1 + chunk.length, acc.2.1 ++ chunk.filter keep, acc.2.2)
      | .error e =>
          (acc.1, acc.2.1, acc.2.2 ++ [⟨seed, idx, e⟩]))
    (0, [], [])

/-- Embedding of `scan_once` (scanner.py lines 200-235). -/
def scan_once (env : ScanEnv) (cfg : ScanCfg) : ScanResult :=
  let seeds := get_seeds cfg.max_pages cfg.seeds_from_env cfg.min_seed_len
  let fcfg := cfg.toFilterCfg env.now_iso
  let spr := scanPages env.searchEnv (prefilterKeep fcfg) seeds
  let fetched := spr.1
  let prefiltered := spr.2.1
  let errors := spr.2.2
  let best := select_best_pair_by_token prefiltered
  let fc := filter_candidates env.dex env.stEnv fcfg (best.map Prod.snd)
  { stats :=
      { filterStats := fc.stats, search_pairs := fetched,
        prefilter := prefiltered.length, unique_tokens := best.length,
        candidates_after_threshold := fc.rows.length },
    rows := fc.rows,
    st_enabled := cfg.st_api_key ≠ "",
    errors := errors,
    used_seeds := seeds }

/-- Case analysis of `filterStep`: a pair is either skipped outright, or it
bumps exactly one of the market-cap counters, or it bumps `mcap_ok` and then
either `ath_missing`, or `ath_found` — in the latter case emitting at most
one row whose ATH is positive and whose ratio is price over ATH. -/
lemma filterStep_shape (dex : DexEnv) (stEnv : STEnv) (cfg : FilterCfg)
    (s : FCState) (p : RawPair) :
    filterStep dex stEnv cfg s p = s ∨
    filterStep dex stEnv cfg s p =
      { s with stats := { s.stats with mcap_missing := s.stats.mcap_missing + 1 } } ∨
    filterStep dex stEnv cfg s p =
      { s with stats := { s.stats with mcap_out := s.stats.mcap_out + 1 } } ∨
    (∃ c, filterStep dex stEnv cfg s p =
      { s with
        stats := { s.stats with
                    mcap_ok := s.stats.mcap_ok + 1
                    ath_missing := s.stats.ath_missing + 1 }
        stCalls := c }) ∨
    (∃ c r, 0 < PairRow.athPrice r ∧
      PairRow.pctOfAth r = PairRow.priceUsd r / PairRow.athPrice r ∧
      (filterStep dex stEnv cfg s p =
        { s with
          stats := { s.stats with
                      mcap_ok := s.stats.mcap_ok + 1
                      ath_found := s.stats.ath_found + 1 }
          stCalls := c } ∨
       filterStep dex stEnv cfg s p =
        { rows := s.rows ++ [r]
          stats := { s.stats with
                      mcap_ok := s.stats.mcap_ok + 1
                      ath_found := s.stats.ath_found + 1 }
          stCalls := c })) := by
  unfold filterStep
  dsimp only
  split
  · split
    · exact Or.inl rfl
    · split
      · exact Or.inl rfl
      · split
        · exact Or.inl rfl
        · split
          · exact Or.inr (Or.inl rfl)
          · split
            · exact Or.inr (Or.inr (Or.inl rfl))
            · split
              · exact Or.inr (Or.inr (Or.inr (Or.inl ⟨_, rfl⟩)))
              · split
                · exact Or.inr (Or.inr (Or.inr (Or.inl ⟨_, rfl⟩)))
                · next hle =>
                  split
                  · refine Or.inr (Or.inr (Or.inr (Or.inr
                      ⟨_, _, ?_, ?_, Or.inr rfl⟩)))
                    · exact not_le.mp hle
                    · rfl
                  · refine Or.inr (Or.inr (Or.inr (Or.inr
                      ⟨_, ⟨"", "", "", "", "", 1, 1, 1, 1, 1, ""⟩,
                        one_pos, ?_, Or.inl rfl⟩)))
                    norm_num
  · exact Or.inl rfl

/-- A row of a filter step is either inherited from the incoming state or
newly emitted with a positive ATH and the price-over-ATH ratio. -/
lemma filterStep_rows_mem (dex : DexEnv) (stEnv : STEnv) (cfg : FilterCfg)
    (s : FCState) (p : RawPair) (r : PairRow)
    (h : r ∈ (filterStep dex stEnv cfg s p).rows) :
    r ∈ s.rows ∨ (0 < r.athPrice ∧ r.pctOfAth = r.priceUsd / r.athPrice) := by
  rcases filterStep_shape dex stEnv cfg s p with
    h1 | h1 | h1 | ⟨c, h1⟩ | ⟨c, r', hpos, hpct, h1 | h1⟩ <;> rw [h1] at h
  · exact Or.inl h
  · exact Or.inl h
  · exact Or.inl h
  · exact Or.inl h
  · exact Or.inl h
  · rcases List.mem_append.mp h with h2 | h2
    · exact Or.inl h2
    · obtain rfl := List.mem_singleton.mp h2
      exact Or.inr ⟨hpos, hpct⟩

/-- The candidate-filter fold preserves the row invariant, the counter
equation `mcap_ok = ath_found + ath_missing`, the row-count bound and the
bound of the market-cap counters by the number of processed pairs. -/
lemma foldl_filterStep_inv (dex : DexEnv) (stEnv : STEnv) (cfg : FilterCfg) :
    ∀ (l : List RawPair) (s : FCState),
    s.stats.mcap_ok = s.stats.ath_found + s.stats.ath_missing →
    s.rows.length ≤ s.stats.ath_found →
    ((l.foldl (filterStep dex stEnv cfg) s).stats.mcap_ok
        = (l.foldl (filterStep dex stEnv cfg) s).stats.ath_found
          + (l.foldl (filterStep dex stEnv cfg) s).stats.ath_missing
      ∧ (l.foldl (filterStep dex stEnv cfg) s).rows.length
          ≤ (l.foldl (filterStep dex stEnv cfg) s).stats.ath_found
      ∧ (l.foldl (filterStep dex stEnv cfg) s).stats.mcap_ok
          + (l.foldl (filterStep dex stEnv cfg) s).stats.mcap_missing
          + (l.foldl (filterStep dex stEnv cfg) s).stats.mcap_out
        ≤ s.stats.mcap_ok + s.stats.mcap_missing + s.stats.mcap_out + l.length) := by
  intro l
  induction l with
  | nil => intro s h1 h2; exact ⟨h1, h2, by simp⟩
  | cons p t ih =>
      intro s h1 h2
      simp only [List.foldl_cons, List.length_cons]
      have hstep :
          (filterStep dex stEnv cfg s p).stats.mcap_ok
              = (filterStep dex stEnv cfg s p).stats.ath_found
                + (filterStep dex stEnv cfg s p).stats.ath_missing
            ∧ (filterStep dex stEnv cfg s p).rows.length
                ≤ (filterStep dex stEnv cfg s p).stats.ath_found
            ∧ (filterStep dex stEnv cfg s p).stats.mcap_ok
                + (filterStep dex stEnv cfg s p).stats.mcap_missing
                + (filterStep dex stEnv cfg s p).stats.mcap_out
              ≤ s.stats.mcap_ok + s.stats.mcap_missing + s.stats.mcap_out + 1 := by
        rcases filterStep_shape dex stEnv cfg s p with
          h | h | h | ⟨c, h⟩ | ⟨c, r, hpos, hpct, h | h⟩ <;> rw [h] <;>
          (try dsimp only) <;>
          (try simp only [List.length_append, List.length_singleton]) <;> omega
      obtain ⟨hs1, hs2, hs3⟩ := hstep
      obtain ⟨ha, hb, hc⟩ := ih (filterStep dex stEnv cfg s p) hs1 hs2
      exact ⟨ha, hb, by omega⟩

/-! ## Concrete test fixtures -/

/-- A market-data environment whose lookups all succeed with no data. -/
def emptyDex : DexEnv := ⟨fun _ => .ok [], fun _ => .ok []⟩

/-- No secondary-provider key configured. -/
def noST : STEnv := ⟨false, fun _ => .s404⟩

/-- A key configured and every secondary call answered with HTTP 401. -/
def st401 : STEnv := ⟨true, fun _ => .s401⟩

/-- The default thresholds of the deployment configuration. -/
def cfg85 : FilterCfg :=
  { vol_min := 100000, vol_max := 100000000, pct_threshold := 85,
    liq_min_usd := 20000, mcap_min := 2000000, mcap_max := 15000000,
    use_proxy_poolmax := false, now_iso := "T" }

/-- A qualifying pair at 75% of its inline ATH of 100. -/
def pair75 : RawPair :=
  { chainId := some "solana", baseName := some "Tok", baseSymbol := some "TK",
    baseAddress := some "B", pairAddress := some "P", priceUsd := some 75,
    volumeH24 := some 500000, liquidityUsd := some 50000,
    marketCap := some 5000000, athPrice := some 100 }

/-- The same pair at 90% of its ATH. -/
def pair90 : RawPair := { pair75 with priceUsd := some 90 }

/-- The same pair with a negative coerced price. -/
def pairNeg : RawPair := { pair75 with priceUsd := some (-5) }

/-- A qualifying pair with no ATH available anywhere (inline, re-fetch and
pools all empty), forcing the resolver to its secondary-provider stage. -/
def pairA : RawPair :=
  { chainId := some "solana", baseName := some "Atok", baseSymbol := some "AT",
    baseAddress := some "Aaddr", pairAddress := some "PA", priceUsd := some 10,
    volumeH24 := some 500000, liquidityUsd := some 50000,
    marketCap := some 5000000 }

/-- A second such pair for a different token. -/
def pairB : RawPair :=
  { pairA with baseAddress := some "Baddr", pairAddress := some "PB" }

/-! ## C1: secondary-provider 401 handling -/

/-- C1: processing two consecutive ATH-less candidates with every
secondary-provider response being HTTP 401, the first call receives the 401
(and sets the client's `unauthorized` flag), yet the filter still issues a
second secondary-provider call: the per-pair `STClient` is rebuilt and the
flag is never consulted, so the claimed "second call is never attempted"
fails on the code. -/
theorem C1_second_call_after_401 :
    (get_token_ath ⟨false⟩ (st401.stResp 0)).2.unauthorized = true ∧
    (filter_candidates emptyDex st401 cfg85 [pairA, pairB]).stCalls = 2 := by
  decide

/-! ## C2: the price-to-ATH threshold -/

/-- C2: for a representative pair that passes the presence, volume,
liquidity and market-cap checks and whose resolved ATH `a` is positive, the
candidate filter emits exactly one new `CandidateRow` iff
`price / a ≤ threshold_pct / 100`, and otherwise leaves the rows unchanged;
in particular the fixture at price 75 and ATH 100 is emitted at threshold 85
and the fixture at price 90 and ATH 100 is not. -/
theorem C2_threshold_iff (dex : DexEnv) (stEnv : STEnv) (cfg : FilterCfg)
    (s : FCState) (p : RawPair) (price vol liq m a : ℚ)
    (hprice : p.priceUsd = some price) (hvol : p.volumeH24 = some vol)
    (hliq : p.liquidityUsd = some liq) (hbase : stripOpt p.baseAddress ≠ "")
    (hvb : ¬ (vol < cfg.vol_min ∨ vol > cfg.vol_max))
    (hlb : ¬ liq < cfg.liq_min_usd)
    (hm : resolve_market_cap dex p = some m)
    (hmr : cfg.mcap_min ≤ m ∧ m ≤ cfg.mcap_max)
    (ha : (filterAth dex stEnv cfg.use_proxy_poolmax p s.stCalls).1 = some a)
    (hpos : 0 < a) :
    ((filterStep dex stEnv cfg s p).rows =
      if price / a ≤ cfg.pct_threshold / 100 then
        s.rows ++ [⟨cfg.now_iso, stripOpt p.baseName, stripOpt p.baseSymbol,
          stripOpt p.baseAddress, stripOpt p.pairAddress, price, a, price / a,
          vol, liq, mkDexLink (stripOpt p.pairAddress)⟩]
      else s.rows) ∧
    (filter_candidates emptyDex noST cfg85 [pair75]).rows.length = 1 ∧
    (filter_candidates emptyDex noST cfg85 [pair90]).rows = [] := by
  refine ⟨?_, by decide, by decide⟩
  simp only [filterStep, hprice, hvol, hliq]
  rw [if_neg hbase, if_neg hvb, if_neg hlb, hm]
  dsimp only
  rw [if_neg (not_not_intro hmr), ha]
  dsimp only
  rw [if_neg (not_le.mpr hpos)]
  by_cases hle : price / a ≤ cfg.pct_threshold / 100
  · rw [if_pos hle, if_pos hle]
  · rw [if_neg hle, if_neg hle]

/-! ## The shape of one candidate-filter step -/


/-- Witness for C2 at the 75-of-100 fixture. -/
theorem C2_threshold_iff_witness :
    (filterStep emptyDex noST cfg85 {} pair75).rows =
      if (75 : ℚ) / 100 ≤ cfg85.pct_threshold / 100 then
        ({} : FCState).rows ++ [⟨cfg85.now_iso, stripOpt pair75.baseName,
          stripOpt pair75.baseSymbol, stripOpt pair75.baseAddress,
          stripOpt pair75.pairAddress, 75, 100, (75 : ℚ) / 100, 500000, 50000,
          mkDexLink (stripOpt pair75.pairAddress)⟩]
      else ({} : FCState).rows :=
  (C2_threshold_iff emptyDex noST cfg85 {} pair75 75 500000 50000 5000000 100
    rfl rfl rfl (by decide) (by decide) (by decide) (by decide) (by decide)
    (by decide) (by decide)).1

/-! ## C3: per-row invariants of emitted candidates -/

/-- C3 (amended): every `CandidateRow` emitted by the candidate filter
satisfies `pctOfAth = priceUsd / athPrice` and `athPrice > 0` (so rows with
a missing or non-positive resolved ATH are never emitted); the filter does
not enforce `priceUsd ≥ 0`. -/
theorem C3_row_invariants (dex : DexEnv) (stEnv : STEnv) (cfg : FilterCfg)
    (ps : List RawPair) (r : PairRow)
    (hr : r ∈ (filter_candidates dex stEnv cfg ps).rows) :
    0 < r.athPrice ∧ r.pctOfAth = r.priceUsd / r.athPrice := by
  unfold filter_candidates at hr
  suffices H : ∀ (l : List RawPair) (s : FCState),
      (∀ x ∈ s.rows, 0 < PairRow.athPrice x ∧
        PairRow.pctOfAth x = PairRow.priceUsd x / PairRow.athPrice x) →
      ∀ x ∈ (l.foldl (filterStep dex stEnv cfg) s).rows,
        0 < PairRow.athPrice x ∧
        PairRow.pctOfAth x = PairRow.priceUsd x / PairRow.athPrice x by
    exact H ps {} (by intro x hx; simp at hx) r hr
  intro l
  induction l with
  | nil => intro s hs x hx; exact hs x hx
  | cons p t ih =>
      intro s hs x hx
      simp only [List.foldl_cons] at hx
      refine ih (filterStep dex stEnv cfg s p) ?_ x hx
      intro y hy
      rcases filterStep_rows_mem dex stEnv cfg s p y hy with h | h
      · exact hs y h
      · exact h

/-- C3 counterexample: a representative pair whose coerced price is `-5`
passes every check of the candidate filter, so a row with a negative
`priceUsd` is emitted, refuting the claimed `priceUsd ≥ 0`. -/
theorem C3_negative_price_emitted :
    (filter_candidates emptyDex noST cfg85 [pairNeg]).rows.map PairRow.priceUsd
      = [-5] ∧ ¬ (0 : ℚ) ≤ -5 := by decide

/-- Witness for C3 on the emitted 75-of-100 fixture row. -/
theorem C3_row_invariants_witness :
    0 < (⟨"T", "Tok", "TK", "B", "P", 75, 100, 75 / 100, 500000, 50000,
        "https://dexscreener.com/solana/P"⟩ : PairRow).athPrice ∧
    (⟨"T", "Tok", "TK", "B", "P", 75, 100, 75 / 100, 500000, 50000,
        "https://dexscreener.com/solana/P"⟩ : PairRow).pctOfAth =
      (⟨"T", "Tok", "TK", "B", "P", 75, 100, 75 / 100, 500000, 50000,
        "https://dexscreener.com/solana/P"⟩ : PairRow).priceUsd /
      (⟨"T", "Tok", "TK", "B", "P", 75, 100, 75 / 100, 500000, 50000,
        "https://dexscreener.com/solana/P"⟩ : PairRow).athPrice :=
  C3_row_invariants emptyDex noST cfg85 [pair75] _ (by decide)

/-! ## C10: statistics invariants of a whole scan -/

/-- C10: in every scan result, `mcap_ok = ath_found + ath_missing`,
`candidates_after_threshold` equals the number of returned rows and is at
most `ath_found`, and the three market-cap counters sum to at most
`unique_tokens` (representatives failing the presence or volume/liquidity
checks touch no counter). -/
theorem C10_stats_invariants (env : ScanEnv) (cfg : ScanCfg) :
    (scan_once env cfg).stats.filterStats.mcap_ok
        = (scan_once env cfg).stats.filterStats.ath_found
          + (scan_once env cfg).stats.filterStats.ath_missing
    ∧ (scan_once env cfg).stats.candidates_after_threshold
        = (scan_once env cfg).rows.length
    ∧ (scan_once env cfg).stats.candidates_after_threshold
        ≤ (scan_once env cfg).stats.filterStats.ath_found
    ∧ (scan_once env cfg).stats.filterStats.mcap_ok
        + (scan_once env cfg).stats.filterStats.mcap_missing
        + (scan_once env cfg).stats.filterStats.mcap_out
      ≤ (scan_once env cfg).stats.unique_tokens := by
  unfold scan_once
  dsimp only
  obtain ⟨h1, h2, h3⟩ := foldl_filterStep_inv env.dex env.stEnv
    (cfg.toFilterCfg env.now_iso)
    ((select_best_pair_by_token
        (scanPages env.searchEnv
          (prefilterKeep (cfg.toFilterCfg env.now_iso))
          (get_seeds cfg.max_pages cfg.seeds_from_env cfg.min_seed_len)).2.1).map
      Prod.snd)
    {} rfl (Nat.le_refl 0)
  refine ⟨h1, rfl, h2, ?_⟩
  simpa using h3

/-! ## C6: value coercion -/

/-- C6 (amended): `safe_float` is total (never raises) and yields the
caller-supplied default on null, NaN inputs, the tokens `nan`/`none`/`''`
(case and whitespace insensitive) and every unparseable string; every other
input yields a float — the parsed value for strings, the exact value for
finite floats — but that float need not be finite: infinite float inputs
and strings denoting an infinity come back infinite. -/
theorem C6_safe_float_contract :
    (∀ d, safe_float PyVal.none d = d)
    ∧ (∀ d, safe_float PyVal.nan d = d)
    ∧ (∀ d s, (pyLower (pyStrip s.data) = "nan".data
          ∨ pyLower (pyStrip s.data) = "none".data
          ∨ pyLower (pyStrip s.data) = []) →
        safe_float (.str s) d = d)
    ∧ (∀ d s, ¬ (pyLower (pyStrip s.data) = "nan".data
          ∨ pyLower (pyStrip s.data) = "none".data
          ∨ pyLower (pyStrip s.data) = []) →
        pyParseFloat (String.mk (pyStrip s.data)) = Option.none →
        safe_float (.str s) d = d)
    ∧ (∀ d q, safe_float (.num q) d = some (.finite q))
    ∧ (∀ d, safe_float PyVal.inf d = some PyFloat.inf)
    ∧ (∀ d, safe_float PyVal.neginf d = some PyFloat.neginf)
    ∧ (∀ d s f, ¬ (pyLower (pyStrip s.data) = "nan".data
          ∨ pyLower (pyStrip s.data) = "none".data
          ∨ pyLower (pyStrip s.data) = []) →
        pyParseFloat (String.mk (pyStrip s.data)) = some f →
        safe_float (.str s) d = some f) := by
  refine ⟨fun d => rfl, fun d => rfl, ?_, ?_, fun d q => rfl,
    fun d => rfl, fun d => rfl, ?_⟩
  · intro d s h
    simp only [safe_float, if_pos h]
  · intro d s h hp
    simp only [safe_float, if_neg h, hp]
  · intro d s f h hp
    simp only [safe_float, if_neg h, hp]

/-- C6 counterexample: the string `"inf"` is neither a missing token nor
unparseable, and `safe_float` maps it to positive infinity, which is not a
finite float. -/
theorem C6_inf_not_finite :
    safe_float (.str "inf") Option.none = some PyFloat.inf ∧
    PyFloat.isFinite PyFloat.inf = false := by decide

/-- Witness for C6 on the unparseable string `"abc"`. -/
theorem C6_safe_float_contract_witness :
    safe_float (.str "abc") (some (.finite 3)) = some (.finite 3) :=
  C6_safe_float_contract.2.2.2.1 (some (.finite 3)) "abc"
    (by decide) (by decide)

/-! ## C7: market-cap resolution and gating -/

/-- The pools actually consulted by the resolvers: none when the stripped
base address is empty, else the chain-filtered bulk token lookup. -/
def consultedPools (dex : DexEnv) (p : RawPair) : List RawPair :=
  if stripOpt p.baseAddress ≠ "" then
    fetch_token_pools dex (stripOpt p.baseAddress)
  else []

/-- Positivity of a coerced value, unfolded. -/
lemma posO_eq_true_iff {v : Option ℚ} : posO v = true ↔ ∃ a, v = some a ∧ 0 < a := by
  cases v <;> simp [posO]

/-- C7: the market-cap resolver is unresolved exactly when the inline
market cap, the inline FDV and every consulted pool's market-cap-or-FDV
value fail the positivity test; in the candidate filter (for a
representative that passed the presence and volume/liquidity checks) an
unresolved market cap bumps exactly `mcap_missing` and excludes the pair,
while a resolved value outside the configured range bumps exactly
`mcap_out` and excludes the pair. -/
theorem C7_mcap_gating (dex : DexEnv) (stEnv : STEnv) (cfg : FilterCfg)
    (s : FCState) (p : RawPair) (price vol liq : ℚ)
    (hprice : p.priceUsd = some price) (hvol : p.volumeH24 = some vol)
    (hliq : p.liquidityUsd = some liq) (hbase : stripOpt p.baseAddress ≠ "")
    (hvb : ¬ (vol < cfg.vol_min ∨ vol > cfg.vol_max))
    (hlb : ¬ liq < cfg.liq_min_usd) :
    (resolve_market_cap dex p = Option.none ↔
      (posO p.marketCap = false ∧ posO p.fdv = false ∧
        ∀ tp ∈ consultedPools dex p,
          posO tp.marketCap = false ∧ posO tp.fdv = false))
    ∧ (resolve_market_cap dex p = Option.none →
        filterStep dex stEnv cfg s p =
          { s with stats := { s.stats with
              mcap_missing := s.stats.mcap_missing + 1 } })
    ∧ (∀ m, resolve_market_cap dex p = some m →
        ¬ (cfg.mcap_min ≤ m ∧ m ≤ cfg.mcap_max) →
        filterStep dex stEnv cfg s p =
          { s with stats := { s.stats with
              mcap_out := s.stats.mcap_out + 1 } }) := by
  refine ⟨?_, ?_, ?_⟩
  · unfold resolve_market_cap consultedPools
    by_cases h1 : posO p.marketCap = true
    · obtain ⟨a, ha, hapos⟩ := posO_eq_true_iff.mp h1
      have hp : posO (some a) = true := by simp [posO, hapos]
      simp [ha, hp]
    · rw [Bool.not_eq_true] at h1
      by_cases h2 : posO p.fdv = true
      · obtain ⟨a, ha, hapos⟩ := posO_eq_true_iff.mp h2
        have hp : posO (some a) = true := by simp [posO, hapos]
        simp [h1, h2, ha, hp]
      · rw [Bool.not_eq_true] at h2
        rw [if_neg (by simp [h1]), if_neg (by simp [h2])]
        dsimp only
        rw [if_neg hbase, if_pos hbase]
        have hcands :
            ((fetch_token_pools dex (stripOpt p.baseAddress)).filterMap fun tp =>
                if posO tp.marketCap then tp.marketCap
                else if posO tp.fdv then tp.fdv else Option.none) = [] ↔
              ∀ tp ∈ fetch_token_pools dex (stripOpt p.baseAddress),
                posO tp.marketCap = false ∧ posO tp.fdv = false := by
          rw [List.filterMap_eq_nil_iff]
          refine forall₂_congr fun tp htp => ?_
          by_cases hm : posO tp.marketCap = true
          · obtain ⟨a, ha, hapos⟩ := posO_eq_true_iff.mp hm
            have hp : posO (some a) = true := by simp [posO, hapos]
            simp [ha, hp]
          · rw [Bool.not_eq_true] at hm
            by_cases hf : posO tp.fdv = true
            · obtain ⟨a, ha, hapos⟩ := posO_eq_true_iff.mp hf
              have hp : posO (some a) = true := by simp [posO, hapos]
              simp [hm, ha, hp]
            · rw [Bool.not_eq_true] at hf
              simp [hm, hf]
        rcases hc : ((fetch_token_pools dex (stripOpt p.baseAddress)).filterMap
            fun tp =>
              if posO tp.marketCap then tp.marketCap
              else if posO tp.fdv then tp.fdv else Option.none) with _ | ⟨c, rest⟩
        · rw [hc]
          simp only [h1, h2]
          simp
          exact hcands.mp hc
        · rw [hc]
          have hnotall : ¬ (∀ tp ∈ fetch_token_pools dex (stripOpt p.baseAddress),
              posO tp.marketCap = false ∧ posO tp.fdv = false) := by
            intro hall
            have hnil := hcands.mpr hall
            rw [hc] at hnil
            cases hnil
          simp [h1, h2, hnotall]
  · intro hres
    simp only [filterStep, hprice, hvol, hliq]
    rw [if_neg hbase, if_neg hvb, if_neg hlb, hres]
  · intro m hres hout
    simp only [filterStep, hprice, hvol, hliq]
    rw [if_neg hbase, if_neg hvb, if_neg hlb, hres]
    dsimp only
    rw [if_pos hout]

/-- A qualifying pair with no market-cap information at all. -/
def pairNoM : RawPair :=
  { chainId := some "solana", baseName := some "Mtok", baseSymbol := some "MT",
    baseAddress := some "Maddr", pairAddress := some "PM", priceUsd := some 10,
    volumeH24 := some 500000, liquidityUsd := some 50000 }

/-- Witness for C7: the no-market-cap fixture bumps exactly `mcap_missing`. -/
theorem C7_mcap_gating_witness :
    filterStep emptyDex noST cfg85 {} pairNoM =
      { ({} : FCState) with stats := { ({} : FCState).stats with
          mcap_missing := ({} : FCState).stats.mcap_missing + 1 } } :=
  (C7_mcap_gating emptyDex noST cfg85 {} pairNoM 10 500000 50000 rfl rfl rfl
    (by decide) (by decide) (by decide)).2.1 (by decide)

/-! ## C4: ATH resolver stage ordering -/

/-- Stage 1 of the ATH fallback chain: the inline ATH when positive. -/
def athStageInline (p : RawPair) : Option ℚ :=
  if posO p.athPrice then p.athPrice else Option.none

/-- Stage 2: the positive ATH of the direct pair re-fetch. -/
def athStagePairRefetch (dex : DexEnv) (p : RawPair) : Option ℚ :=
  if stripOpt p.pairAddress ≠ "" then
    match dex.pairLookup (stripOpt p.pairAddress) with
    | .ok lst =>
        match lst with
        | [] => Option.none
        | h :: _ => if posO h.athPrice then h.athPrice else Option.none
    | .error _ => Option.none
  else Option.none

/-- Stage 3: the maximum positive ATH over the consulted pools. -/
def athStagePoolMax (dex : DexEnv) (p : RawPair) : Option ℚ :=
  match posVals ((consultedPools dex p).map (·.athPrice)) with
  | a :: rest => some (listMax a rest)
  | [] => Option.none

/-- Stage 4: the positive secondary-provider ATH (only with a client and a
non-empty base address). -/
def athStageST (stEnv : STEnv) (st : Option STClientState) (p : RawPair)
    (calls : ℕ) : Option ℚ :=
  match st with
  | some stc =>
      if stripOpt p.baseAddress ≠ "" then
        match (get_token_ath stc (stEnv.stResp calls)).1 with
        | .ok v => if posO v then v else Option.none
        | .error _ => Option.none
      else Option.none
  | Option.none => Option.none

/-- Stage 5: the maximum positive current pool price, as an opt-in proxy. -/
def athStageProxy (dex : DexEnv) (p : RawPair) (useProxy : Bool) : Option ℚ :=
  if useProxy ∧ consultedPools dex p ≠ [] then
    match posVals ((consultedPools dex p).map (·.priceUsd)) with
    | q :: rest => some (listMax q rest)
    | [] => Option.none
  else Option.none

/-- C4: the ATH resolver tries inline ATH, pair re-fetch, pool maximum,
secondary provider (only when a client is present), then the opt-in
current-price proxy, in that order, first positive value winning; a
positive inline ATH short-circuits with no secondary call, a missing
secondary key means the filter makes no secondary call, and the resolver is
unresolved when every stage yields nothing. -/
theorem C4_ath_stage_order (dex : DexEnv) (stEnv : STEnv) (p : RawPair)
    (st : Option STClientState) (useProxy : Bool) (calls : ℕ) :
    ((ensure_ath dex stEnv p st useProxy calls).1 =
      (match athStageInline p with
       | some v => some v
       | Option.none =>
         match athStagePairRefetch dex p with
         | some v => some v
         | Option.none =>
           match athStagePoolMax dex p with
           | some v => some v
           | Option.none =>
             match athStageST stEnv st p calls with
             | some v => some v
             | Option.none => athStageProxy dex p useProxy))
    ∧ (posO p.athPrice = true →
        ensure_ath dex stEnv p st useProxy calls = (p.athPrice, calls))
    ∧ (st = Option.none →
        (ensure_ath dex stEnv p st useProxy calls).2 = calls)
    ∧ (stEnv.keyConfigured = false →
        (filterAth dex stEnv useProxy p calls).2 = calls)
    ∧ ((athStageInline p = Option.none ∧
        athStagePairRefetch dex p = Option.none ∧
        athStagePoolMax dex p = Option.none ∧
        athStageST stEnv st p calls = Option.none ∧
        athStageProxy dex p useProxy = Option.none) →
        (ensure_ath dex stEnv p st useProxy calls).1 = Option.none) := by
  have proxyTail : ∀ (tps : List RawPair) (c' : ℕ),
      (((if useProxy = true ∧ tps ≠ [] then
          match posVals (tps.map (·.priceUsd)) with
          | q :: rest => (some (listMax q rest), c')
          | [] => (Option.none, c')
        else (Option.none, c')) : Option ℚ × ℕ)).1 =
        (if useProxy = true ∧ tps ≠ [] then
          match posVals (tps.map (·.priceUsd)) with
          | q :: rest => some (listMax q rest)
          | [] => Option.none
        else Option.none) := by
    intro tps c'
    by_cases hup : useProxy = true ∧ tps ≠ []
    · rw [if_pos hup, if_pos hup]
      rcases hpp : posVals (tps.map (·.priceUsd)) with _ | ⟨q, rest⟩ <;>
        rw [hpp]
    · rw [if_neg hup, if_neg hup]
  have main :
      (ensure_ath dex stEnv p st useProxy calls).1 =
        (match athStageInline p with
         | some v => some v
         | Option.none =>
           match athStagePairRefetch dex p with
           | some v => some v
           | Option.none =>
             match athStagePoolMax dex p with
             | some v => some v
             | Option.none =>
               match athStageST stEnv st p calls with
               | some v => some v
               | Option.none => athStageProxy dex p useProxy) := by
    unfold ensure_ath athStageInline athStagePairRefetch athStagePoolMax
      athStageST athStageProxy consultedPools
    dsimp only
    by_cases hi : posO p.athPrice = true
    · obtain ⟨a, ha, hpos⟩ := posO_eq_true_iff.mp hi
      have hp : posO (some a) = true := by simp [posO, hpos]
      simp [ha, hp]
    · rw [Bool.not_eq_true] at hi
      simp only [hi, Bool.false_eq_true, if_false]
      rcases hv : (if stripOpt p.pairAddress ≠ "" then
          match dex.pairLookup (stripOpt p.pairAddress) with
          | .ok lst =>
              match lst with
              | [] => Option.none
              | h :: _ => if posO h.athPrice then h.athPrice else Option.none
          | .error _ => Option.none
        else Option.none) with _ | v
      · try rw [hv]
        dsimp only
        rcases hpm : posVals (((if stripOpt p.baseAddress ≠ "" then
            fetch_token_pools dex (stripOpt p.baseAddress) else []).map
            (·.athPrice))) with _ | ⟨a, rest⟩
        · try rw [hpm]
          dsimp only
          rcases st with _ | stc
          · try dsimp only
            exact proxyTail _ calls
          · try dsimp only
            rcases hres : (get_token_ath stc (stEnv.stResp calls)).1 with e | v2
            · by_cases hb : stripOpt p.baseAddress ≠ ""
              · simp only [if_pos hb]
                try dsimp only
                try simp only [if_pos hb]
                try dsimp only
                exact proxyTail _ (calls + 1)
              · simp only [if_neg hb]
                try dsimp only
                try simp only [if_neg hb]
                try dsimp only
                exact proxyTail _ calls
            · by_cases hb : stripOpt p.baseAddress ≠ ""
              · simp only [if_pos hb]
                try dsimp only
                try simp only [if_pos hb]
                try dsimp only
                rcases hv2 : v2 with _ | a2
                · try dsimp only
                  exact proxyTail _ (calls + 1)
                · by_cases hpv : posO (some a2) = true
                  · simp [hpv]
                  · rw [Bool.not_eq_true] at hpv
                    simp only [hpv, Bool.false_eq_true, if_false]
                    try dsimp only
                    exact proxyTail _ (calls + 1)
              · simp only [if_neg hb]
                try dsimp only
                try simp only [if_neg hb]
                try dsimp only
                exact proxyTail _ calls
        · try rw [hpm]
      · try rw [hv]
  have callsEq : (ensure_ath dex stEnv p Option.none useProxy calls).2 = calls := by
    unfold ensure_ath
    dsimp only
    by_cases hi : posO p.athPrice = true
    · simp [hi]
    · rw [Bool.not_eq_true] at hi
      simp only [hi, Bool.false_eq_true, if_false]
      rcases hv : (if stripOpt p.pairAddress ≠ "" then
          match dex.pairLookup (stripOpt p.pairAddress) with
          | .ok lst =>
              match lst with
              | [] => Option.none
              | h :: _ => if posO h.athPrice then h.athPrice else Option.none
          | .error _ => Option.none
        else Option.none) with _ | v
      · try rw [hv]
        dsimp only
        rcases hpm : posVals (((if stripOpt p.baseAddress ≠ "" then
            fetch_token_pools dex (stripOpt p.baseAddress) else []).map
            (·.athPrice))) with _ | ⟨a, rest⟩
        · try rw [hpm]
          dsimp only
          repeat' split
          all_goals rfl
        · try rw [hpm]
      · try rw [hv]
  refine ⟨main, ?_, ?_, ?_, ?_⟩
  · intro hi
    obtain ⟨a, ha, hpos⟩ := posO_eq_true_iff.mp hi
    have hp : posO (some a) = true := by simp [posO, hpos]
    unfold ensure_ath
    simp [ha, hp]
  · rintro rfl
    exact callsEq
  · intro hkey
    unfold filterAth
    rw [hkey]
    rcases hpa : p.athPrice with _ | a
    · dsimp only
      exact callsEq
    · dsimp only
      split
      · exact callsEq
      · rfl
  · intro hall
    rw [main, hall.1, hall.2.1, hall.2.2.1, hall.2.2.2.1]
    exact hall.2.2.2.2

/-- Witness for C4: a positive inline ATH resolves immediately with no
secondary call consumed. -/
theorem C4_ath_stage_order_witness :
    ensure_ath emptyDex noST pair75 Option.none false 0 = (pair75.athPrice, 0) :=
  (C4_ath_stage_order emptyDex noST pair75 Option.none false 0).2.1 (by decide)

/-! ## C8: per-page failure isolation -/

/-- The same search environment with every raised page exception replaced
by an empty successful page. -/
def cleanSearch (se : SearchEnv) : SearchEnv :=
  ⟨fun s =>
    match se.search s with
    | .ok l => .ok l
    | .error _ => .ok []⟩

/-- The same scan environment with failing pages replaced by empty ones. -/
def cleanScanEnv (env : ScanEnv) : ScanEnv :=
  { env with searchEnv := cleanSearch env.searchEnv }

/-- Closed form of the page loop: total fetched count, concatenated kept
pairs of the successful pages, and one error record per failing page in
page order. -/
lemma scanPages_closed (env : SearchEnv) (keep : RawPair → Bool)
    (seeds : List String) :
    ∀ (l : List ℕ) (acc : ℕ × List RawPair × List ErrRec),
    l.foldl
      (fun (acc : ℕ × List RawPair × List ErrRec) i =>
        let idx := i + 1
        let seed := seeds.getD (idx - 1) ""
        match fetch_pairs_page env idx seeds with
        | .ok chunk =>
            (acc.1 + chunk.length, acc.2.1 ++ chunk.filter keep, acc.2.2)
        | .error e =>
            (acc.1, acc.2.1, acc.2.2 ++ [⟨seed, idx, e⟩])) acc =
      (acc.1 + (l.map fun i =>
          match fetch_pairs_page env (i + 1) seeds with
          | .ok chunk => chunk.length
          | .error _ => 0).sum,
       acc.2.1 ++ (l.map fun i =>
          match fetch_pairs_page env (i + 1) seeds with
          | .ok chunk => chunk.filter keep
          | .error _ => []).flatten,
       acc.2.2 ++ l.filterMap fun i =>
          match fetch_pairs_page env (i + 1) seeds with
          | .error e => some ⟨seeds.getD i "", i + 1, e⟩
          | .ok _ => Option.none) := by
  intro l
  induction l with
  | nil => intro acc; simp
  | cons i t ih =>
      intro acc
      simp only [List.foldl_cons, List.map_cons, List.sum_cons,
        List.flatten_cons, List.filterMap_cons]
      rcases hf : fetch_pairs_page env (i + 1) seeds with e | chunk
      · dsimp only
        rw [ih]
        simp [Nat.add_assoc, List.append_assoc]
      · dsimp only
        rw [ih]
        simp [Nat.add_assoc, List.append_assoc]

/-- A cleaned page fetch: failures become empty pages, successes are
untouched. -/
lemma fetch_pairs_page_clean (se : SearchEnv) (page : ℕ) (seeds : List String) :
    fetch_pairs_page (cleanSearch se) page seeds =
      match fetch_pairs_page se page seeds with
      | .ok chunk => .ok chunk
      | .error _ => .ok [] := by
  unfold fetch_pairs_page cleanSearch
  by_cases hr : page < 1 ∨ page > seeds.length
  · rw [if_pos hr, if_pos hr]
  · rw [if_neg hr, if_neg hr]
    dsimp only
    rcases se.search (seeds.getD (page - 1) "") with e | l <;> rfl

/-- C8: every failing page contributes exactly one error record carrying
its seed, page index and error text (in page order); replacing the failing
pages by empty pages changes neither rows nor statistics — the failure only
populates the error log, and the cleaned scan has an empty log. -/
theorem C8_page_failures_isolated (env : ScanEnv) (cfg : ScanCfg) :
    ((scan_once env cfg).errors =
      (List.range (get_seeds cfg.max_pages cfg.seeds_from_env
          cfg.min_seed_len).length).filterMap fun i =>
        match fetch_pairs_page env.searchEnv (i + 1)
            (get_seeds cfg.max_pages cfg.seeds_from_env cfg.min_seed_len) with
        | .error e => some ⟨(get_seeds cfg.max_pages cfg.seeds_from_env
            cfg.min_seed_len).getD i "", i + 1, e⟩
        | .ok _ => Option.none)
    ∧ (scan_once env cfg).rows = (scan_once (cleanScanEnv env) cfg).rows
    ∧ (scan_once env cfg).stats = (scan_once (cleanScanEnv env) cfg).stats
    ∧ (scan_once (cleanScanEnv env) cfg).errors = [] := by
  have hclosed : ∀ (se : SearchEnv) (keep : RawPair → Bool) (seeds : List String),
      scanPages se keep seeds =
        (((List.range seeds.length).map fun i =>
            match fetch_pairs_page se (i + 1) seeds with
            | .ok chunk => chunk.length
            | .error _ => 0).sum,
         ((List.range seeds.length).map fun i =>
            match fetch_pairs_page se (i + 1) seeds with
            | .ok chunk => chunk.filter keep
            | .error _ => []).flatten,
         (List.range seeds.length).filterMap fun i =>
            match fetch_pairs_page se (i + 1) seeds with
            | .error e => some ⟨seeds.getD i "", i + 1, e⟩
            | .ok _ => Option.none) := by
    intro se keep seeds
    unfold scanPages
    rw [scanPages_closed se keep seeds (List.range seeds.length) (0, [], [])]
    simp
  have hlen : ∀ seeds (i : ℕ),
      (match fetch_pairs_page (cleanSearch env.searchEnv) (i + 1) seeds with
        | .ok chunk => chunk.length
        | .error (_ : String) => 0) =
      (match fetch_pairs_page env.searchEnv (i + 1) seeds with
        | .ok chunk => chunk.length
        | .error _ => 0) := by
    intro seeds i
    rw [fetch_pairs_page_clean]
    rcases fetch_pairs_page env.searchEnv (i + 1) seeds with e | c <;> rfl
  have hkeep : ∀ (keep : RawPair → Bool) seeds (i : ℕ),
      (match fetch_pairs_page (cleanSearch env.searchEnv) (i + 1) seeds with
        | .ok chunk => chunk.filter keep
        | .error (_ : String) => []) =
      (match fetch_pairs_page env.searchEnv (i + 1) seeds with
        | .ok chunk => chunk.filter keep
        | .error _ => []) := by
    intro keep seeds i
    rw [fetch_pairs_page_clean]
    rcases fetch_pairs_page env.searchEnv (i + 1) seeds with e | c <;> rfl
  have herrclean : ∀ seeds (i : ℕ),
      (match fetch_pairs_page (cleanSearch env.searchEnv) (i + 1) seeds with
        | .error e => some (⟨seeds.getD i "", i + 1, e⟩ : ErrRec)
        | .ok _ => Option.none) = Option.none := by
    intro seeds i
    rw [fetch_pairs_page_clean]
    rcases fetch_pairs_page env.searchEnv (i + 1) seeds with e | c <;> rfl
  unfold scan_once cleanScanEnv
  dsimp only
  rw [hclosed, hclosed]
  refine ⟨rfl, ?_, ?_, ?_⟩
  · dsimp only
    rw [List.map_congr_left fun i _ => hkeep _ _ i]
  · dsimp only
    rw [List.map_congr_left fun i _ => hkeep _ _ i,
      List.map_congr_left fun i _ => hlen _ i]
  · dsimp only
    rw [List.filterMap_congr fun i _ => herrclean _ i]
    simp

/-! ## C5: the best-pair selector -/

/-- The strict comparison of `selectStep` (scanner.py line 108): better
liquidity, or equal liquidity and better volume. -/
def lexGT (p q : RawPair) : Prop :=
  liqD p > liqD q ∨ (liqD p = liqD q ∧ volD p > volD q)

instance lexGTDec (p q : RawPair) : Decidable (lexGT p q) :=
  inferInstanceAs (Decidable (liqD p > liqD q ∨ (liqD p = liqD q ∧ volD p > volD q)))

lemma lexGT_irrefl (p : RawPair) : ¬ lexGT p p := by
  unfold lexGT
  rintro (h | ⟨_, h⟩) <;> exact lt_irrefl _ h

lemma lexGT_trans {a b c : RawPair} (h1 : lexGT a b) (h2 : lexGT b c) :
    lexGT a c := by
  unfold lexGT at *
  rcases h1 with h1 | ⟨h1, h1v⟩ <;> rcases h2 with h2 | ⟨h2, h2v⟩
  · exact Or.inl (by linarith)
  · exact Or.inl (by linarith)
  · exact Or.inl (by linarith)
  · exact Or.inr ⟨by linarith, by linarith⟩

lemma not_lexGT_iff {a b : RawPair} :
    ¬ lexGT a b ↔ (liqD a < liqD b ∨ (liqD a = liqD b ∧ volD a ≤ volD b)) := by
  unfold lexGT
  constructor
  · intro h
    push_neg at h
    rcases lt_trichotomy (liqD a) (liqD b) with hl | hl | hl
    · exact Or.inl hl
    · exact Or.inr ⟨hl, h.2 hl⟩
    · exact absurd hl (not_lt.mpr h.1)
  · rintro (h | ⟨he, hv⟩)
    · rintro (h2 | ⟨h2, _⟩) <;> linarith
    · rintro (h2 | ⟨_, h2⟩) <;> linarith

lemma lexGT_of_lexGT_of_not_lexGT {x q b : RawPair}
    (h1 : lexGT x q) (h2 : ¬ lexGT b q) : lexGT x b := by
  rw [not_lexGT_iff] at h2
  unfold lexGT at *
  rcases h1 with h1 | ⟨h1, h1v⟩ <;> rcases h2 with h2 | ⟨h2, h2v⟩
  · exact Or.inl (by linarith)
  · exact Or.inl (by linarith)
  · exact Or.inl (by linarith)
  · exact Or.inr ⟨by linarith, by linarith⟩

/-- The pairs of `pairs` whose stripped base address is `k`. -/
def groupOf (pairs : List RawPair) (k : String) : List RawPair :=
  pairs.filter fun q => stripOpt q.baseAddress = k

/-- The first lexicographic maximum of a group: the element the dict-based
selection keeps. -/
def bestOfGroup : List RawPair → Option RawPair
  | [] => Option.none
  | q :: rest =>
      match bestOfGroup rest with
      | Option.none => some q
      | some b => if lexGT b q then some b else some q

lemma bestOfGroup_eq_none_iff {g : List RawPair} :
    bestOfGroup g = Option.none ↔ g = [] := by
  cases g with
  | nil => simp [bestOfGroup]
  | cons q rest =>
      simp only [bestOfGroup]
      constructor
      · intro h
        exfalso
        rcases hbr : bestOfGroup rest with _ | b <;> rw [hbr] at h
        · cases h
        · dsimp only at h
          split at h <;> cases h
      · intro h
        cases h

lemma bestOfGroup_append (g : List RawPair) (p : RawPair) :
    bestOfGroup (g ++ [p]) =
      (match bestOfGroup g with
       | Option.none => some p
       | some b => if lexGT p b then some p else some b) := by
  induction g with
  | nil => simp [bestOfGroup]
  | cons q rest ih =>
      rcases hbr : bestOfGroup rest with _ | b
      · have hrest : rest = [] := bestOfGroup_eq_none_iff.mp hbr
        subst hrest
        simp [bestOfGroup]
      · rw [hbr] at ih
        dsimp only at ih
        show bestOfGroup (q :: (rest ++ [p])) = _
        simp only [bestOfGroup]
        rw [ih, hbr]
        dsimp only
        by_cases hpb : lexGT p b
        · rw [if_pos hpb]
          dsimp only
          by_cases hbq : lexGT b q
          · rw [if_pos hbq]
            dsimp only
            have hpq : lexGT p q := lexGT_trans hpb hbq
            rw [if_pos hpq, if_pos hpb]
          · rw [if_neg hbq]
        · rw [if_neg hpb]
          dsimp only
          by_cases hbq : lexGT b q
          · rw [if_pos hbq]
            dsimp only
            rw [if_neg hpb]
          · rw [if_neg hbq]
            dsimp only
            by_cases hpq : lexGT p q
            · exact absurd (lexGT_of_lexGT_of_not_lexGT hpq hbq) hpb
            · rw [if_neg hpq]

lemma bestOfGroup_mem : ∀ {g : List RawPair} {b : RawPair},
    bestOfGroup g = some b → b ∈ g := by
  intro g
  induction g with
  | nil => intro b h; cases h
  | cons q rest ih =>
      intro b h
      simp only [bestOfGroup] at h
      rcases hbr : bestOfGroup rest with _ | b' <;> rw [hbr] at h
      · obtain rfl : q = b := by injection h
        exact List.mem_cons_self _ _
      · dsimp only at h
        by_cases hb'q : lexGT b' q
        · rw [if_pos hb'q] at h
          obtain rfl : b' = b := by injection h
          exact List.mem_cons_of_mem _ (ih hbr)
        · rw [if_neg hb'q] at h
          obtain rfl : q = b := by injection h
          exact List.mem_cons_self _ _

lemma bestOfGroup_max : ∀ {g : List RawPair} {b : RawPair},
    bestOfGroup g = some b → ∀ x ∈ g, ¬ lexGT x b := by
  intro g
  induction g with
  | nil => intro b h; cases h
  | cons q rest ih =>
      intro b h x hx
      simp only [bestOfGroup] at h
      rcases hbr : bestOfGroup rest with _ | b' <;> rw [hbr] at h
      · obtain rfl : q = b := by injection h
        rcases List.mem_cons.mp hx with rfl | hx2
        · exact lexGT_irrefl x
        · rw [bestOfGroup_eq_none_iff.mp hbr] at hx2
          cases hx2
      · dsimp only at h
        by_cases hb'q : lexGT b' q
        · rw [if_pos hb'q] at h
          obtain rfl : b' = b := by injection h
          rcases List.mem_cons.mp hx with rfl | hx2
          · exact fun hc => lexGT_irrefl _ (lexGT_trans hb'q hc)
          · exact ih hbr x hx2
        · rw [if_neg hb'q] at h
          obtain rfl : q = b := by injection h
          rcases List.mem_cons.mp hx with rfl | hx2
          · exact lexGT_irrefl x
          · exact fun hc => (ih hbr x hx2) (lexGT_of_lexGT_of_not_lexGT hc hb'q)

lemma bestOfGroup_first : ∀ {g : List RawPair} {b : RawPair},
    bestOfGroup g = some b →
    ∃ l₁ l₂, g = l₁ ++ b :: l₂ ∧ ∀ x ∈ l₁, lexGT b x := by
  intro g
  induction g with
  | nil => intro b h; cases h
  | cons q rest ih =>
      intro b h
      simp only [bestOfGroup] at h
      rcases hbr : bestOfGroup rest with _ | b' <;> rw [hbr] at h
      · obtain rfl : q = b := by injection h
        exact ⟨[], rest, rfl, by simp⟩
      · dsimp only at h
        by_cases hb'q : lexGT b' q
        · rw [if_pos hb'q] at h
          obtain rfl : b' = b := by injection h
          obtain ⟨l₁, l₂, hsplit, hall⟩ := ih hbr
          refine ⟨q :: l₁, l₂, ?_, ?_⟩
          · rw [hsplit, List.cons_append]
          · intro x hx
            rcases List.mem_cons.mp hx with rfl | hx2
            · exact hb'q
            · exact hall x hx2
        · rw [if_neg hb'q] at h
          obtain rfl : q = b := by injection h
          exact ⟨[], rest, rfl, by simp⟩

lemma lookupAssoc_update (l : List (String × RawPair)) (b : String)
    (v : RawPair) (k : String) :
    lookupAssoc (updateAssoc l b v) k =
      if b = k then some v else lookupAssoc l k := by
  induction l with
  | nil => simp [updateAssoc, lookupAssoc]
  | cons hd t ih =>
      obtain ⟨k', v'⟩ := hd
      by_cases hk' : k' = b
      · subst hk'
        simp only [updateAssoc, if_pos rfl, lookupAssoc]
        by_cases hkk : k' = k
        · rw [if_pos hkk, if_pos hkk]
        · rw [if_neg hkk, if_neg hkk, if_neg hkk]
      · simp only [updateAssoc, if_neg hk', lookupAssoc, ih]
        by_cases hkk : k' = k
        · have hbk : ¬ b = k := fun hbk => hk' (hkk.trans hbk.symm)
          rw [if_pos hkk, if_neg hbk, if_pos hkk]
        · rw [if_neg hkk, if_neg hkk]

lemma updateAssoc_of_not_mem (l : List (String × RawPair)) (b : String)
    (v : RawPair) (h : lookupAssoc l b = Option.none) :
    updateAssoc l b v = l ++ [(b, v)] := by
  induction l with
  | nil => rfl
  | cons hd t ih =>
      obtain ⟨k', v'⟩ := hd
      simp only [lookupAssoc] at h
      simp only [updateAssoc]
      by_cases hk' : k' = b
      · rw [if_pos hk'] at h
        cases h
      · rw [if_neg hk'] at h
        rw [if_neg hk', List.cons_append, ih h]

lemma lookupAssoc_eq_none_iff (l : List (String × RawPair)) (k : String) :
    lookupAssoc l k = Option.none ↔ k ∉ l.map Prod.fst := by
  induction l with
  | nil => simp [lookupAssoc]
  | cons hd t ih =>
      obtain ⟨k', v'⟩ := hd
      simp only [lookupAssoc, List.map_cons, List.mem_cons]
      by_cases hk' : k' = k
      · rw [if_pos hk']
        simp [hk']
      · rw [if_neg hk']
        simp only [ih]
        constructor
        · rintro h (h1 | h2)
          · exact hk' h1.symm
          · exact h h2
        · intro h hmem
          exact h (Or.inr hmem)

lemma mapFst_updateAssoc (l : List (String × RawPair)) (b : String)
    (v : RawPair) (h : lookupAssoc l b ≠ Option.none) :
    (updateAssoc l b v).map Prod.fst = l.map Prod.fst := by
  induction l with
  | nil => exact absurd rfl h
  | cons hd t ih =>
      obtain ⟨k', v'⟩ := hd
      simp only [lookupAssoc] at h
      simp only [updateAssoc]
      by_cases hk' : k' = b
      · rw [if_pos hk']
        simp only [List.map_cons]
        rw [hk']
      · rw [if_neg hk'] at h
        rw [if_neg hk']
        simp only [List.map_cons]
        rw [ih h]

lemma mem_of_lookupAssoc {l : List (String × RawPair)} {k : String}
    {v : RawPair} (h : lookupAssoc l k = some v) : (k, v) ∈ l := by
  induction l with
  | nil => cases h
  | cons hd t ih =>
      obtain ⟨k', v'⟩ := hd
      simp only [lookupAssoc] at h
      by_cases hk' : k' = k
      · rw [if_pos hk'] at h
        obtain rfl : v' = v := by injection h
        rw [hk']
        exact List.mem_cons_self _ _
      · rw [if_neg hk'] at h
        exact List.mem_cons_of_mem _ (ih h)

lemma lookupAssoc_of_mem {l : List (String × RawPair)} {k : String}
    {v : RawPair} (hnd : (l.map Prod.fst).Nodup) (h : (k, v) ∈ l) :
    lookupAssoc l k = some v := by
  induction l with
  | nil => cases h
  | cons hd t ih =>
      obtain ⟨k', v'⟩ := hd
      simp only [List.map_cons, List.nodup_cons] at hnd
      rcases List.mem_cons.mp h with heq | hmem
      · obtain ⟨rfl, rfl⟩ := Prod.mk.injEq .. ▸ heq
        simp [lookupAssoc]
      · simp only [lookupAssoc]
        by_cases hk' : k' = k
        · exfalso
          apply hnd.1
          rw [hk']
          exact List.mem_map_of_mem Prod.fst hmem
        · rw [if_neg hk']
          exact ih hnd.2 hmem

lemma select_best_append (l : List RawPair) (p : RawPair) :
    select_best_pair_by_token (l ++ [p]) =
      selectStep (select_best_pair_by_token l) p := by
  unfold select_best_pair_by_token
  rw [List.foldl_append]
  rfl

lemma groupOf_append (l : List RawPair) (p : RawPair) (k : String) :
    groupOf (l ++ [p]) k =
      groupOf l k ++ (if stripOpt p.baseAddress = k then [p] else []) := by
  unfold groupOf
  rw [List.filter_append]
  congr 1
  by_cases h : stripOpt p.baseAddress = k
  · simp [h]
  · simp [h]

/-- The dictionary built by `select_best_pair_by_token` has distinct keys,
its keys are exactly the non-empty stripped base addresses of the input,
and the entry of every key is the first lexicographic-maximum pair of the
key's group. -/
lemma select_best_spec (pairs : List RawPair) :
    ((select_best_pair_by_token pairs).map Prod.fst).Nodup
    ∧ (∀ k, k ∈ (select_best_pair_by_token pairs).map Prod.fst ↔
        (k ≠ "" ∧ ∃ q ∈ pairs, stripOpt q.baseAddress = k))
    ∧ (∀ k, k ≠ "" →
        lookupAssoc (select_best_pair_by_token pairs) k =
          bestOfGroup (groupOf pairs k)) := by
  induction pairs using List.reverseRecOn with
  | nil =>
      refine ⟨by simp [select_best_pair_by_token], ?_, ?_⟩
      · intro k
        simp [select_best_pair_by_token]
      · intro k hk
        simp [select_best_pair_by_token, lookupAssoc, groupOf, bestOfGroup]
  | append_singleton l p ih =>
      obtain ⟨ih1, ih2, ih3⟩ := ih
      rw [select_best_append]
      unfold selectStep
      by_cases hbase : stripOpt p.baseAddress = ""
      · rw [if_pos hbase]
        refine ⟨ih1, ?_, ?_⟩
        · intro k
          rw [ih2 k]
          constructor
          · rintro ⟨hk, q, hq, hqk⟩
            exact ⟨hk, q, List.mem_append_left _ hq, hqk⟩
          · rintro ⟨hk, q, hq, hqk⟩
            rcases List.mem_append.mp hq with hq | hq
            · exact ⟨hk, q, hq, hqk⟩
            · obtain rfl := List.mem_singleton.mp hq
              rw [hbase] at hqk
              exact absurd hqk.symm hk
        · intro k hk
          rw [ih3 k hk, groupOf_append]
          rw [if_neg (fun (h : stripOpt p.baseAddress = k) => hk (h ▸ hbase))]
          rw [List.append_nil]
      · rw [if_neg hbase]
        rcases hlk : lookupAssoc (select_best_pair_by_token l)
            (stripOpt p.baseAddress) with _ | ex
        · have hupd := updateAssoc_of_not_mem _ _ p hlk
          rw [← hupd]
          have hnotmem : stripOpt p.baseAddress ∉
              (select_best_pair_by_token l).map Prod.fst :=
            (lookupAssoc_eq_none_iff _ _).mp hlk
          refine ⟨?_, ?_, ?_⟩
          · rw [hupd, List.map_append]
            simp only [List.map_cons, List.map_nil]
            rw [List.nodup_append]
            exact ⟨ih1, List.nodup_singleton _,
              by simpa using fun h => hnotmem h⟩
          · intro k
            rw [hupd, List.map_append]
            simp only [List.map_cons, List.map_nil]
            rw [List.mem_append, List.mem_singleton, ih2 k]
            constructor
            · rintro (⟨hk, q, hq, hqk⟩ | rfl)
              · exact ⟨hk, q, List.mem_append_left _ hq, hqk⟩
              · exact ⟨hbase, p, List.mem_append_right _ (List.mem_singleton.mpr rfl), rfl⟩
            · rintro ⟨hk, q, hq, hqk⟩
              rcases List.mem_append.mp hq with hq | hq
              · exact Or.inl ⟨hk, q, hq, hqk⟩
              · obtain rfl := List.mem_singleton.mp hq
                exact Or.inr hqk.symm
          · intro k hk
            rw [lookupAssoc_update, groupOf_append]
            by_cases hbk : stripOpt p.baseAddress = k
            · rw [if_pos hbk, if_pos hbk, bestOfGroup_append]
              rw [← hbk, ← ih3 _ hbase, hlk]
            · rw [if_neg hbk, if_neg hbk, List.append_nil, ih3 k hk]
        · have hlkne : lookupAssoc (select_best_pair_by_token l)
              (stripOpt p.baseAddress) ≠ Option.none := by
            rw [hlk]; intro h; cases h
          dsimp only
          by_cases hcond : liqD p > liqD ex ∨ (liqD p = liqD ex ∧ volD p > volD ex)
          · rw [if_pos hcond]
            refine ⟨?_, ?_, ?_⟩
            · rw [mapFst_updateAssoc _ _ _ hlkne]
              exact ih1
            · intro k
              rw [mapFst_updateAssoc _ _ _ hlkne, ih2 k]
              constructor
              · rintro ⟨hk, q, hq, hqk⟩
                exact ⟨hk, q, List.mem_append_left _ hq, hqk⟩
              · rintro ⟨hk, q, hq, hqk⟩
                rcases List.mem_append.mp hq with hq | hq
                · exact ⟨hk, q, hq, hqk⟩
                · obtain rfl := List.mem_singleton.mp hq
                  refine ⟨hk, ?_⟩
                  have hmem : stripOpt q.baseAddress ∈
                      (select_best_pair_by_token l).map Prod.fst := by
                    by_contra hno
                    exact hlkne (hqk ▸ (lookupAssoc_eq_none_iff _ _).mpr (hqk ▸ hno))
                  rw [ih2] at hmem
                  obtain ⟨_, q2, hq2, hq2k⟩ := hmem
                  exact ⟨q2, hq2, by rw [hq2k, hqk]⟩
            · intro k hk
              rw [lookupAssoc_update, groupOf_append]
              by_cases hbk : stripOpt p.baseAddress = k
              · simp only [if_pos hbk]
                rw [bestOfGroup_append]
                have hgk : bestOfGroup (groupOf l k) = some ex := by
                  rw [← ih3 k hk, ← hbk]
                  exact hlk
                rw [hgk]
                dsimp only
                rw [if_pos (show lexGT p ex from hcond)]
              · simp only [if_neg hbk]
                rw [List.append_nil, ih3 k hk]
          · rw [if_neg hcond]
            refine ⟨ih1, ?_, ?_⟩
            · intro k
              rw [ih2 k]
              constructor
              · rintro ⟨hk, q, hq, hqk⟩
                exact ⟨hk, q, List.mem_append_left _ hq, hqk⟩
              · rintro ⟨hk, q, hq, hqk⟩
                rcases List.mem_append.mp hq with hq | hq
                · exact ⟨hk, q, hq, hqk⟩
                · obtain rfl := List.mem_singleton.mp hq
                  refine ⟨hk, ?_⟩
                  have hmem : stripOpt q.baseAddress ∈
                      (select_best_pair_by_token l).map Prod.fst := by
                    by_contra hno
                    exact hlkne (hqk ▸ (lookupAssoc_eq_none_iff _ _).mpr (hqk ▸ hno))
                  rw [ih2] at hmem
                  obtain ⟨_, q2, hq2, hq2k⟩ := hmem
                  exact ⟨q2, hq2, by rw [hq2k, hqk]⟩
            · intro k hk
              rw [groupOf_append]
              by_cases hbk : stripOpt p.baseAddress = k
              · rw [if_pos hbk, bestOfGroup_append]
                have hgk : bestOfGroup (groupOf l k) = some ex := by
                  rw [← ih3 k hk, ← hbk]
                  exact hlk
                rw [hgk]
                dsimp only
                rw [if_neg (show ¬ lexGT p ex from hcond)]
                rw [ih3 k hk, hgk]
              · rw [if_neg hbk, List.append_nil, ih3 k hk]

/-- C5: the selector returns exactly one entry per distinct non-empty
stripped base address (pairs without an address are dropped), and each kept
pair belongs to its group, has liquidity at least every other group
member's, wins volume ties, and is the first group member strictly
lexicographically above everything before it (first-seen wins remaining
ties) — which determines the selection uniquely from the input order. -/
theorem C5_best_pair_selector (pairs : List RawPair) :
    ((select_best_pair_by_token pairs).map Prod.fst).Nodup
    ∧ (∀ k, (k ∈ (select_best_pair_by_token pairs).map Prod.fst) ↔
        (k ≠ "" ∧ ∃ q ∈ pairs, stripOpt q.baseAddress = k))
    ∧ (∀ k p, (k, p) ∈ select_best_pair_by_token pairs →
        p ∈ pairs ∧ stripOpt p.baseAddress = k ∧
        (∀ q ∈ pairs, stripOpt q.baseAddress = k → liqD q ≤ liqD p) ∧
        (∀ q ∈ pairs, stripOpt q.baseAddress = k → liqD q = liqD p →
          volD q ≤ volD p) ∧
        (∃ l₁ l₂, groupOf pairs k = l₁ ++ p :: l₂ ∧ ∀ q ∈ l₁, lexGT p q)) := by
  obtain ⟨h1, h2, h3⟩ := select_best_spec pairs
  refine ⟨h1, h2, ?_⟩
  intro k p hmem
  have hkmem : k ∈ (select_best_pair_by_token pairs).map Prod.fst :=
    List.mem_map_of_mem Prod.fst hmem
  have hk : k ≠ "" := ((h2 k).mp hkmem).1
  have hlook : lookupAssoc (select_best_pair_by_token pairs) k = some p :=
    lookupAssoc_of_mem h1 hmem
  have hbg : bestOfGroup (groupOf pairs k) = some p := by
    rw [← h3 k hk]
    exact hlook
  have hpg : p ∈ groupOf pairs k := bestOfGroup_mem hbg
  have hpp : p ∈ pairs ∧ stripOpt p.baseAddress = k := by
    have := List.mem_filter.mp hpg
    exact ⟨this.1, by simpa using this.2⟩
  have hmax := bestOfGroup_max hbg
  refine ⟨hpp.1, hpp.2, ?_, ?_, bestOfGroup_first hbg⟩
  · intro q hq hqk
    have hqg : q ∈ groupOf pairs k :=
      List.mem_filter.mpr ⟨hq, by simpa using hqk⟩
    have hno := hmax q hqg
    rw [not_lexGT_iff] at hno
    rcases hno with h | ⟨he, _⟩
    · exact le_of_lt h
    · exact le_of_eq he
  · intro q hq hqk heq
    have hqg : q ∈ groupOf pairs k :=
      List.mem_filter.mpr ⟨hq, by simpa using hqk⟩
    have hno := hmax q hqg
    rw [not_lexGT_iff] at hno
    rcases hno with h | ⟨_, hv⟩
    · exact absurd heq (ne_of_lt h)
    · exact hv

/-- A shallower pool for the same token as `pair75`. -/
def pairLow : RawPair :=
  { pair75 with liquidityUsd := some 10, volumeH24 := some 400000 }

/-- Witness for C5 on a two-pool token: the deeper pool is kept. -/
theorem C5_best_pair_selector_witness :
    pair75 ∈ [pair75, pairLow] ∧ stripOpt pair75.baseAddress = "B" ∧
    (∀ q ∈ [pair75, pairLow], stripOpt q.baseAddress = "B" →
      liqD q ≤ liqD pair75) ∧
    (∀ q ∈ [pair75, pairLow], stripOpt q.baseAddress = "B" →
      liqD q = liqD pair75 → volD q ≤ volD pair75) ∧
    (∃ l₁ l₂, groupOf [pair75, pairLow] "B" = l₁ ++ pair75 :: l₂ ∧
      ∀ q ∈ l₁, lexGT pair75 q) :=
  (C5_best_pair_selector [pair75, pairLow]).2.2 "B" pair75 (by decide)

/-! ## C9: the redundant prefilter bounds check -/

/-- Modelled from the spec (§9 design note): the inline prefilter with its
volume/liquidity bounds check removed — the presence check and the inline
market-cap range check are kept, and the candidate filter is unchanged. -/
def prefilterKeepNoBounds (cfg : FilterCfg) (p : RawPair) : Bool :=
  match p.volumeH24, p.liquidityUsd with
  | some _, some _ =>
      match inlineMcap p with
      | some m => decide (cfg.mcap_min ≤ m ∧ m ≤ cfg.mcap_max)
      | Option.none => true
  | _, _ => false

/-- Modelled from the spec (§9 design note): `scan_once` with the
prefilter's volume/liquidity bounds check removed. -/
def scan_once_noPrefilterBounds (env : ScanEnv) (cfg : ScanCfg) : ScanResult :=
  let seeds := get_seeds cfg.max_pages cfg.seeds_from_env cfg.min_seed_len
  let fcfg := cfg.toFilterCfg env.now_iso
  let spr := scanPages env.searchEnv (prefilterKeepNoBounds fcfg) seeds
  let fetched := spr.1
  let prefiltered := spr.2.1
  let errors := spr.2.2
  let best := select_best_pair_by_token prefiltered
  let fc := filter_candidates env.dex env.stEnv fcfg (best.map Prod.snd)
  { stats :=
      { filterStats := fc.stats, search_pairs := fetched,
        prefilter := prefiltered.length, unique_tokens := best.length,
        candidates_after_threshold := fc.rows.length },
    rows := fc.rows,
    st_enabled := cfg.st_api_key ≠ "",
    errors := errors,
    used_seeds := seeds }

/-- The volume/liquidity bounds part of the prefilter, on its own. -/
def boundsOk (cfg : FilterCfg) (p : RawPair) : Bool :=
  match p.volumeH24, p.liquidityUsd with
  | some vol, some liq =>
      decide (¬ (vol < cfg.vol_min ∨ vol > cfg.vol_max)) &&
        decide (¬ liq < cfg.liq_min_usd)
  | _, _ => false

lemma prefilterKeep_split (cfg : FilterCfg) (p : RawPair) :
    prefilterKeep cfg p = (prefilterKeepNoBounds cfg p && boundsOk cfg p) := by
  unfold prefilterKeep prefilterKeepNoBounds boundsOk
  rcases p.volumeH24 with _ | vol <;> rcases p.liquidityUsd with _ | liq <;>
    dsimp only
  · rfl
  · rfl
  · rfl
  · by_cases hv : vol < cfg.vol_min ∨ vol > cfg.vol_max
    · simp [hv]
    · rw [if_neg hv]
      by_cases hl : liq < cfg.liq_min_usd
      · simp [hv, hl]
      · rw [if_neg hl]
        rcases inlineMcap p with _ | m <;> simp [hv, hl]

/-- A pair outside the volume/liquidity bounds (or with those fields
missing) is a no-op of the candidate-filter step. -/
lemma filterStep_skip_of_bounds (dex : DexEnv) (stEnv : STEnv)
    (cfg : FilterCfg) (s : FCState) (p : RawPair)
    (h : boundsOk cfg p = false) : filterStep dex stEnv cfg s p = s := by
  unfold filterStep
  rcases p.priceUsd with _ | price
  · rfl
  · rcases hv : p.volumeH24 with _ | vol
    · rfl
    · rcases hl : p.liquidityUsd with _ | liq
      · rfl
      · dsimp only
        by_cases hb : stripOpt p.baseAddress = ""
        · rw [if_pos hb]
        · rw [if_neg hb]
          by_cases hvb : vol < cfg.vol_min ∨ vol > cfg.vol_max
          · rw [if_pos hvb]
          · rw [if_neg hvb]
            by_cases hlb : liq < cfg.liq_min_usd
            · rw [if_pos hlb]
            · exfalso
              unfold boundsOk at h
              rw [hv, hl] at h
              rcases not_or.mp hvb with ⟨hv1, hv2⟩
              simp [not_lt.mp hv1, not_lt.mp hv2, not_lt.mp hlb] at h

/-- Dropping step-neutral elements does not change a fold. -/
lemma foldl_filter_of_neutral {α β : Type} (step : β → α → β) (b : α → Bool)
    (h : ∀ s p, b p = false → step s p = s) :
    ∀ (l : List α) (s : β), l.foldl step s = (l.filter b).foldl step s := by
  intro l
  induction l with
  | nil => intro s; rfl
  | cons p t ih =>
      intro s
      simp only [List.foldl_cons, List.filter_cons]
      rcases hb : b p with _ | _
      · rw [h s p hb]
        exact ih s
      · simp only [List.foldl_cons]
        exact ih (step s p)

lemma filter_flatten {α : Type} (b : α → Bool) :
    ∀ (L : List (List α)), L.flatten.filter b = (L.map (List.filter b)).flatten := by
  intro L
  induction L with
  | nil => rfl
  | cons c t ih =>
      simp only [List.flatten_cons, List.filter_append, List.map_cons, ih]

/-- The closed form of `scanPages` as a standalone equation. -/
lemma scanPages_eq (se : SearchEnv) (keep : RawPair → Bool)
    (seeds : List String) :
    scanPages se keep seeds =
      (((List.range seeds.length).map fun i =>
          match fetch_pairs_page se (i + 1) seeds with
          | .ok chunk => chunk.length
          | .error _ => 0).sum,
       ((List.range seeds.length).map fun i =>
          match fetch_pairs_page se (i + 1) seeds with
          | .ok chunk => chunk.filter keep
          | .error _ => []).flatten,
       (List.range seeds.length).filterMap fun i =>
          match fetch_pairs_page se (i + 1) seeds with
          | .error e => some ⟨seeds.getD i "", i + 1, e⟩
          | .ok _ => Option.none) := by
  unfold scanPages
  rw [scanPages_closed se keep seeds (List.range seeds.length) (0, [], [])]
  simp

/-- Prefiltering with the bounds check equals prefiltering without it and
filtering by the bounds afterwards. -/
lemma scanPages_prefiltered_split (se : SearchEnv) (seeds : List String)
    (k2 b : RawPair → Bool) :
    (scanPages se (fun p => k2 p && b p) seeds).2.1 =
      ((scanPages se k2 seeds).2.1).filter b := by
  rw [scanPages_eq, scanPages_eq]
  dsimp only
  rw [filter_flatten, List.map_map]
  congr 1
  refine List.map_congr_left fun i _ => ?_
  rcases h : fetch_pairs_page se (i + 1) seeds with e | chunk <;>
    simp only [Function.comp, h]
  · rfl
  · rw [List.filter_filter]
    exact List.filter_congr fun p _ => Bool.and_comm (k2 p) (b p)

/-- The dedup key a pair contributes to the best-pair dictionary: its
stripped base address, when non-empty. -/
def keyOf (p : RawPair) : Option String :=
  if stripOpt p.baseAddress = "" then Option.none
  else some (stripOpt p.baseAddress)

/-- The dictionary entry a pair contributes when its key is fresh. -/
def entryOf (p : RawPair) : Option (String × RawPair) :=
  if stripOpt p.baseAddress = "" then Option.none
  else some (stripOpt p.baseAddress, p)

lemma mapFst_filterMap_entryOf (l : List RawPair) :
    (l.filterMap entryOf).map Prod.fst = l.filterMap keyOf := by
  induction l with
  | nil => rfl
  | cons p t ih =>
      by_cases h : stripOpt p.baseAddress = "" <;>
        simp [entryOf, keyOf, h, List.filterMap_cons, ih]

lemma mapSnd_filterMap_entryOf (l : List RawPair) :
    (l.filterMap entryOf).map Prod.snd =
      l.filter fun p => !decide (stripOpt p.baseAddress = "") := by
  induction l with
  | nil => rfl
  | cons p t ih =>
      by_cases h : stripOpt p.baseAddress = "" <;>
        simp [entryOf, h, List.filterMap_cons, List.filter_cons, ih]

/-- When no two pairs of the input share a non-empty base address, the
selection dictionary is just the key-carrying pairs in input order: no
in-place update ever happens. -/
lemma select_best_of_nodup :
    ∀ l : List RawPair, (l.filterMap keyOf).Nodup →
      select_best_pair_by_token l = l.filterMap entryOf := by
  intro l
  induction l using List.reverseRecOn with
  | nil => intro _; rfl
  | append_singleton t p ih =>
      intro h
      rw [List.filterMap_append] at h
      obtain ⟨ht, _, hdisj⟩ := List.nodup_append.mp h
      rw [select_best_append, ih ht, List.filterMap_append]
      unfold selectStep
      dsimp only
      by_cases hk : stripOpt p.baseAddress = ""
      · rw [if_pos hk]
        simp [entryOf, hk]
      · rw [if_neg hk]
        have hnotin : stripOpt p.baseAddress ∉ t.filterMap keyOf := by
          intro hmem
          exact hdisj hmem (by simp [keyOf, hk])
        have hlook : lookupAssoc (t.filterMap entryOf)
            (stripOpt p.baseAddress) = Option.none := by
          rw [lookupAssoc_eq_none_iff, mapFst_filterMap_entryOf]
          exact hnotin
        rw [hlook]
        simp [entryOf, hk]

/-- C9 (amended): removing the prefilter's volume/liquidity bounds check
(keeping the Candidate Filter's authoritative re-check) leaves the final
candidate rows unchanged PROVIDED no two pairs surviving the relaxed
prefilter share a non-empty base-token address; without that proviso the
bounds check can change which pair represents a token after deduplication,
and with it the rows. -/
theorem C9_prefilter_bounds_redundant (env : ScanEnv) (cfg : ScanCfg)
    (hnd : (((scanPages env.searchEnv
        (prefilterKeepNoBounds (cfg.toFilterCfg env.now_iso))
        (get_seeds cfg.max_pages cfg.seeds_from_env
          cfg.min_seed_len)).2.1).filterMap keyOf).Nodup) :
    (scan_once env cfg).rows = (scan_once_noPrefilterBounds env cfg).rows := by
  unfold scan_once scan_once_noPrefilterBounds
  dsimp only
  set seeds := get_seeds cfg.max_pages cfg.seeds_from_env cfg.min_seed_len
    with hseeds
  set fcfg := cfg.toFilterCfg env.now_iso with hfcfg
  set P0 := (scanPages env.searchEnv (prefilterKeepNoBounds fcfg) seeds).2.1
    with hP0
  have hsplit : (scanPages env.searchEnv (prefilterKeep fcfg) seeds).2.1 =
      P0.filter (boundsOk fcfg) := by
    have hfun : prefilterKeep fcfg =
        fun p => prefilterKeepNoBounds fcfg p && boundsOk fcfg p :=
      funext fun p => prefilterKeep_split fcfg p
    rw [hfun]
    exact scanPages_prefiltered_split env.searchEnv seeds _ _
  rw [hsplit]
  have hndb : ((P0.filter (boundsOk fcfg)).filterMap keyOf).Nodup :=
    List.Nodup.sublist (List.Sublist.filterMap keyOf (List.filter_sublist P0))
      hnd
  rw [select_best_of_nodup _ hndb, select_best_of_nodup _ hnd,
    mapSnd_filterMap_entryOf, mapSnd_filterMap_entryOf]
  unfold filter_candidates
  rw [foldl_filter_of_neutral (filterStep env.dex env.stEnv fcfg)
    (boundsOk fcfg) (filterStep_skip_of_bounds env.dex env.stEnv fcfg)
    (P0.filter fun p => !decide (stripOpt p.baseAddress = "")) {}]
  rw [List.filter_filter, List.filter_filter]
  rw [List.filter_congr fun p _ =>
    Bool.and_comm (!decide (stripOpt p.baseAddress = "")) (boundsOk fcfg p)]

/-- A pair whose 24h volume exceeds the configured maximum but whose
liquidity beats its sibling's. -/
def pairHiVol : RawPair :=
  { chainId := some "solana", baseName := some "Tok", baseSymbol := some "TK",
    baseAddress := some "CE", pairAddress := some "PA", priceUsd := some 10,
    volumeH24 := some 2000000, liquidityUsd := some 100000,
    marketCap := some 5000000, athPrice := some 100 }

/-- A sibling pair of the same token with in-range volume but lower
liquidity. -/
def pairInRange : RawPair :=
  { chainId := some "solana", baseName := some "Tok", baseSymbol := some "TK",
    baseAddress := some "CE", pairAddress := some "PB", priceUsd := some 10,
    volumeH24 := some 500000, liquidityUsd := some 50000,
    marketCap := some 5000000, athPrice := some 100 }

/-- A one-seed scan configuration with `volume_max` = 1e6. -/
def cfgScanC9 : ScanCfg :=
  { volume_min := 100000, volume_max := 1000000, price_threshold_pct := 85,
    liq_min_usd := 20000, mcap_min := 2000000, mcap_max := 15000000,
    seeds_from_env := "ab", max_pages := 1, min_seed_len := 2,
    st_api_key := "", use_proxy_poolmax := false }

/-- A scan environment whose single page returns the two sibling pairs. -/
def envC9 : ScanEnv :=
  { searchEnv := ⟨fun _ => .ok [pairHiVol, pairInRange]⟩, dex := emptyDex,
    stEnv := noST, now_iso := "T" }

/-- A scan environment whose single page returns one pair only. -/
def envC9one : ScanEnv :=
  { searchEnv := ⟨fun _ => .ok [pairInRange]⟩, dex := emptyDex,
    stEnv := noST, now_iso := "T" }

/-- Counterexample to the claim as stated: with two sibling pairs of one
token, removing the prefilter's bounds check changes the deduplication
representative (the out-of-bounds pair wins on liquidity) and the final
rows change from one row to none. -/
theorem C9_bounds_change_representative :
    (scan_once envC9 cfgScanC9).rows.length = 1 ∧
    (scan_once_noPrefilterBounds envC9 cfgScanC9).rows.length = 0 ∧
    (scan_once envC9 cfgScanC9).rows ≠
      (scan_once_noPrefilterBounds envC9 cfgScanC9).rows := by
  refine ⟨by decide, by decide, by decide⟩

theorem C9_prefilter_bounds_redundant_witness :
    (((scanPages envC9one.searchEnv
        (prefilterKeepNoBounds (cfgScanC9.toFilterCfg envC9one.now_iso))
        (get_seeds cfgScanC9.max_pages cfgScanC9.seeds_from_env
          cfgScanC9.min_seed_len)).2.1).filterMap keyOf).Nodup ∧
    (scan_once envC9one cfgScanC9).rows =
      (scan_once_noPrefilterBounds envC9one cfgScanC9).rows :=
  ⟨by decide, C9_prefilter_bounds_redundant envC9one cfgScanC9 (by decide)⟩
